import Mathlib

/-!
# go-db-migrations: a shallow embedding of the upgrade algorithm

The Go sources embedded here are `source.go` (`Migration`, `Source`,
`SourceDirect`, `SourceDir` over a model of the directory tree and of
`filepath.Walk`), `database.go` (`Executed`, the `Database` interface,
`DatabasePostgres.RecordMigration`, `DatabasePostgres.Migrate`,
`isPrimaryKeyErr`), `upgrader.go` (`Upgrader.Do`, `Upgrader.Println`),
`cmd/migrations/main.go` (`cmdRecord`) and the test double `DatabaseMock`
of `upgrader_test.go`.

Collaborators are interfaces in Go.  An implementation of `Database` is a
record of state transformers over a state type `σ`; a Go `error` is an
`Option String` (`none` is `nil`, `some msg` an error whose text is `msg`).
Every collaborator call is appended to a trace, with its outcome, so that
statements about which calls were made, and in which order, can be made.
-/

namespace Migrations

/-! ## Data model -/

/-- The struct `Migration` of `source.go`. -/
structure Migration where
  ID : String
  Content : String
  deriving DecidableEq, Repr

/-- The struct `Executed` of `database.go`; `ExecutedAt` is a clock reading. -/
structure Executed where
  ID : String
  DurationMS : Int
  ExecutedAt : Int
  deriving DecidableEq, Repr

/-- A Go `error` value: `none` is `nil`. -/
abbrev Error := Option String

/-- The interface `Source` of `source.go`: the outcome of `Migrations()`. -/
structure Source where
  Migrations : Except String (List Migration)

/-- The type `SourceDirect` of `source.go`: `Migrations` returns the list itself. -/
def SourceDirect (sd : List Migration) : Source :=
  { Migrations := .ok sd }

/-- The interface `Database` of `database.go` over a store state `σ`.
A `time.Duration` is a number of nanoseconds. -/
structure Database (σ : Type) where
  ExecutedMigrations : σ → Except String (List Executed) × σ
  RecordMigration : String → Int → σ → Error × σ
  Migrate : Migration → σ → Error × σ
  IsAlreadyExecuted : String → σ → Except String Bool × σ

/-- One argument of a `Println` call. -/
inductive LogArg where
  | str (s : String)
  | dur (d : Int)
  deriving DecidableEq, Repr

/-- The interface `Logger` of `upgrader.go` over a logger state `L`. -/
structure Logger (L : Type) where
  Println : List LogArg → L → L

/-- A collaborator call together with its outcome. -/
inductive Call where
  | srcMigrations
  | executedMigrations (err : Error)
  | migrate (mig : Migration) (err : Error)
  | recordMigration (id : String) (duration : Int) (err : Error)
  | isAlreadyExecuted (id : String) (res : Except String Bool)
  | println (args : List LogArg)

/-- The struct `UpgradeResult` of `upgrader.go`. -/
structure UpgradeResult where
  Executed : List Migration
  deriving DecidableEq, Repr

/-- The struct `Upgrader` of `upgrader.go`; a `nil` logger is `none`. -/
structure Upgrader (σ L : Type) where
  Logger : Option (Logger L)
  Source : Source
  Database : Database σ

/-- The ambient clock: `now n` is the `n`-th reading of `time.Now()`. -/
abbrev Clock := Nat → Int

/-- What a run of `Upgrader.Do` starts from: the store behind the database,
the state of the logger and the number of clock readings taken so far. -/
structure World (σ L : Type) where
  db : σ
  log : L
  tick : Nat

/-- The world during a run, with the calls the run has made so far. -/
structure Run (σ L : Type) where
  db : σ
  log : L
  tick : Nat
  trace : List Call

/-- The method `Upgrader.Println`: forwards to the logger unless it is `nil`. -/
def Upgrader.Println {σ L : Type} (u : Upgrader σ L) (v : List LogArg)
    (w : Run σ L) : Run σ L :=
  match u.Logger with
  | some lg => { w with log := lg.Println v w.log, trace := w.trace ++ [Call.println v] }
  | none => w

/-- The map `executedByID` of `Upgrader.Do`: one assignment `m[k] = v`. -/
def mapSet (m : List (String × Executed)) (k : String) (v : Executed) :
    List (String × Executed) :=
  (k, v) :: m.filter (fun p => p.1 != k)

/-- The loop `for _, mig := range executedAlready { executedByID[mig.ID] = mig }`. -/
def buildExecutedByID (executedAlready : List Executed) : List (String × Executed) :=
  executedAlready.foldl (fun m mig => mapSet m mig.ID mig) []

/-- The state of the main loop of `Upgrader.Do`: the world, the slice
`executedNow` and the outer variable `err`. -/
structure LoopState (σ L : Type) where
  world : Run σ L
  executedNow : List Migration
  err : Error

/-- The main loop of `Upgrader.Do` over the remaining source migrations.
A `break` returns the state as it is; note that the error of
`RecordMigration` is bound to a variable of the inner `if` only, so the outer
`err` keeps the (nil) value assigned from `Migrate`. -/
def Upgrader.loop {σ L : Type} (u : Upgrader σ L) (now : Clock)
    (executedByID : List (String × Executed)) :
    List Migration → LoopState σ L → LoopState σ L
  | [], st => st
  | mig :: rest, st =>
    if (executedByID.lookup mig.ID).isSome then
      u.loop now executedByID rest st
    else
      let w1 := u.Println [LogArg.str "Executing migration", LogArg.str mig.ID] st.world
      let start := now w1.tick
      let w2 := { w1 with tick := w1.tick + 1 }
      let r := u.Database.Migrate mig w2.db
      let w3 := { w2 with db := r.2, trace := w2.trace ++ [Call.migrate mig r.1] }
      match r.1 with
      | some e => { world := w3, executedNow := st.executedNow, err := some e }
      | none =>
        let duration := now w3.tick - start
        let w4 := { w3 with tick := w3.tick + 1 }
        let w5 := u.Println [LogArg.str "Done,", LogArg.dur duration] w4
        let r2 := u.Database.RecordMigration mig.ID duration w5.db
        let w6 := { w5 with db := r2.2,
                            trace := w5.trace ++ [Call.recordMigration mig.ID duration r2.1] }
        match r2.1 with
        | some _ => { world := w6, executedNow := st.executedNow, err := none }
        | none =>
          u.loop now executedByID rest
            { world := w6, executedNow := st.executedNow ++ [mig], err := none }

/-- What `Upgrader.Do` returns, with the world it leaves behind and the calls
it made. -/
structure DoResult (σ L : Type) where
  result : Option UpgradeResult
  err : Error
  world : World σ L
  trace : List Call

/-- The result of `Upgrader.Do` at the end of a run. -/
def Run.finish {σ L : Type} (w : Run σ L) (result : Option UpgradeResult) (err : Error) :
    DoResult σ L :=
  { result := result, err := err,
    world := { db := w.db, log := w.log, tick := w.tick }, trace := w.trace }

/-- The method `Upgrader.Do` of `upgrader.go`. -/
def Upgrader.Do {σ L : Type} (u : Upgrader σ L) (now : Clock) (w : World σ L) :
    DoResult σ L :=
  let w1 : Run σ L := { db := w.db, log := w.log, tick := w.tick, trace := [Call.srcMigrations] }
  match u.Source.Migrations with
  | .error e => w1.finish none (some ("could not read source migrations: " ++ e))
  | .ok migrationsSrc =>
    if migrationsSrc.length = 0 then
      w1.finish none (some "no migrations to run")
    else
      let r := u.Database.ExecutedMigrations w1.db
      match r.1 with
      | .error e =>
        Run.finish { w1 with db := r.2, trace := w1.trace ++ [Call.executedMigrations (some e)] }
          none (some ("could not get already executed migrations: " ++ e))
      | .ok executedAlready =>
        let w2 := { w1 with db := r.2, trace := w1.trace ++ [Call.executedMigrations none] }
        let executedByID := buildExecutedByID executedAlready
        let st := u.loop now executedByID migrationsSrc
          { world := w2, executedNow := [], err := none }
        match st.err with
        | some e =>
          st.world.finish (some { Executed := st.executedNow })
            (some ("failure during migrations execution: " ++ e))
        | none => st.world.finish (some { Executed := st.executedNow }) none

/-- One iteration of the loop on a migration that is not in the map, and
whether the loop goes on after it (a proof device: `loop_cons_attempt` shows
that the loop is made of these). -/
def Upgrader.attempt {σ L : Type} (u : Upgrader σ L) (now : Clock) (mig : Migration)
    (st : LoopState σ L) : LoopState σ L × Bool :=
  let w1 := u.Println [LogArg.str "Executing migration", LogArg.str mig.ID] st.world
  let start := now w1.tick
  let w2 := { w1 with tick := w1.tick + 1 }
  let r := u.Database.Migrate mig w2.db
  let w3 := { w2 with db := r.2, trace := w2.trace ++ [Call.migrate mig r.1] }
  match r.1 with
  | some e => ({ world := w3, executedNow := st.executedNow, err := some e }, false)
  | none =>
    let duration := now w3.tick - start
    let w4 := { w3 with tick := w3.tick + 1 }
    let w5 := u.Println [LogArg.str "Done,", LogArg.dur duration] w4
    let r2 := u.Database.RecordMigration mig.ID duration w5.db
    let w6 := { w5 with db := r2.2,
                        trace := w5.trace ++ [Call.recordMigration mig.ID duration r2.1] }
    match r2.1 with
    | some _ => ({ world := w6, executedNow := st.executedNow, err := none }, false)
    | none => ({ world := w6, executedNow := st.executedNow ++ [mig], err := none }, true)

/-- The state in which `Upgrader.Do` enters its loop. -/
def loopStart {σ L : Type} (u : Upgrader σ L) (w : World σ L) : LoopState σ L :=
  { world := { db := (u.Database.ExecutedMigrations w.db).2, log := w.log, tick := w.tick,
               trace := [Call.srcMigrations, Call.executedMigrations none] },
    executedNow := [], err := none }

/-! ## The test double `DatabaseMock` of `upgrader_test.go` -/

/-- The struct `DatabaseMock`. -/
structure DatabaseMock where
  executed : List Executed
  migrateOverride : Bool
  migrateFailsAfter : Nat
  deriving DecidableEq, Repr

/-- The variable `someDBError` of the tests. -/
def someDBError : String := "some db error"

/-- The methods of `DatabaseMock` as a `Database`.  `RecordMigration` appends
a record (the mock stores a fixed duration and the current time, taken as 0
here) and `IsAlreadyExecuted`, which panics in the test double and is never
reached from `Upgrader.Do`, reports an error. -/
def DatabaseMock.database : Database DatabaseMock where
  ExecutedMigrations := fun dm => (.ok dm.executed, dm)
  RecordMigration := fun id _ dm =>
    (none, { dm with executed := dm.executed ++ [{ ID := id, DurationMS := 1000000, ExecutedAt := 0 }] })
  Migrate := fun _ dm =>
    if dm.migrateOverride then
      if dm.migrateFailsAfter = 0 then (some someDBError, dm)
      else (none, { dm with migrateFailsAfter := dm.migrateFailsAfter - 1 })
    else (none, dm)
  IsAlreadyExecuted := fun _ dm => (.error "not implemented", dm)

/-! ## `DatabasePostgres` of `database.go` -/

/-- An error returned by `database/sql`: a `*pq.Error` with its code and
message, or any other error with its text. -/
inductive SqlError where
  | pq (code : String) (message : String)
  | other (text : String)
  deriving DecidableEq, Repr

/-- The text of the error: `pq.Error.Error()` is `"pq: " + Message`. -/
def SqlError.Error : SqlError → String
  | .pq _ message => "pq: " ++ message
  | .other text => text

/-- An argument of a query. -/
inductive SqlArg where
  | text (s : String)
  | int (i : Int)
  deriving DecidableEq, Repr

/-- The part of `*sql.DB` and `*sql.Tx` that `RecordMigration` and `Migrate`
use, over a connection state `τ`. -/
structure SqlDB (τ : Type) where
  Exec : String → List SqlArg → τ → Option SqlError × τ
  Begin : τ → Option SqlError × τ
  TxExec : String → τ → Option SqlError × τ
  TxCommit : τ → Option SqlError × τ
  TxRollback : τ → Option SqlError × τ

/-- The constant `migrationsExecutedTable`. -/
def migrationsExecutedTable : String := "migrations_executed"

/-- The variable `insertMigrationQuery`. -/
def insertMigrationQuery : String :=
  "INSERT INTO " ++ migrationsExecutedTable ++ " (id, duration_ms)\nVALUES ($1, $2)"

/-- The function `isPrimaryKeyErr`. -/
def isPrimaryKeyErr (err : SqlError) : Bool :=
  match err with
  | .pq code _ => if code = "23505" then true else false
  | .other _ => false

/-- The result of `time.Duration.Milliseconds`: nanoseconds divided by a
million, rounded toward zero. -/
def Milliseconds (duration : Int) : Int := Int.tdiv duration 1000000

/-- The method `DatabasePostgres.RecordMigration`. -/
def DatabasePostgres.RecordMigration {τ : Type} (dp : SqlDB τ) (id : String) (duration : Int)
    (s : τ) : Error × τ :=
  let r := dp.Exec insertMigrationQuery [SqlArg.text id, SqlArg.int (Milliseconds duration)] s
  match r.1 with
  | some err =>
    if isPrimaryKeyErr err then
      (some ("migration " ++ id ++ " is already executed"), r.2)
    else
      (some ("could not insert record in migrations_executed: " ++ err.Error), r.2)
  | none => (none, r.2)

/-- The method `DatabasePostgres.Migrate`.  The results of `tx.Rollback()` and
of `tx.Commit()` are not looked at. -/
def DatabasePostgres.Migrate {τ : Type} (dp : SqlDB τ) (mig : Migration) (s : τ) : Error × τ :=
  let b := dp.Begin s
  match b.1 with
  | some err => (some ("could not begin transaction: " ++ err.Error), b.2)
  | none =>
    let e := dp.TxExec mig.Content b.2
    match e.1 with
    | some err => (some err.Error, (dp.TxRollback e.2).2)
    | none => (none, (dp.TxCommit e.2).2)

/-- A small store behind `SqlDB`: the rows of `migrations_executed`, the
statements committed so far, those run in the open transaction, and two
switches that make the connection or the next commit fail. -/
structure PgState where
  rows : List (String × Int)
  committed : List String
  pending : List String
  down : Bool
  commitFails : Bool
  deriving DecidableEq, Repr

/-- The store as a `SqlDB`: an insert of an ID that has a row is a unique
violation, a commit that fails discards the open transaction. -/
def pgStore : SqlDB PgState where
  Exec := fun _ args s =>
    if s.down then (some (.other "connection refused"), s)
    else match args with
      | [SqlArg.text id, SqlArg.int d] =>
        if (s.rows.map (·.1)).contains id then
          (some (.pq "23505" "duplicate key value violates unique constraint"), s)
        else (none, { s with rows := s.rows ++ [(id, d)] })
      | _ => (some (.pq "42601" "syntax error"), s)
  Begin := fun s => if s.down then (some (.other "connection refused"), s) else (none, s)
  TxExec := fun q s =>
    if q = "" then (some (.pq "42601" "syntax error"), s)
    else (none, { s with pending := s.pending ++ [q] })
  TxCommit := fun s =>
    if s.commitFails then (some (.other "commit failed"), { s with pending := [] })
    else (none, { s with committed := s.committed ++ s.pending, pending := [] })
  TxRollback := fun s => (none, { s with pending := [] })

/-- A store on which a trigger rejects every insert with `RAISE EXCEPTION`
(`pq` code P0001), in words of its own choosing. -/
def raisingStore : SqlDB Unit where
  Exec := fun _ _ s => (some (.pq "P0001" "migration a is already executed"), s)
  Begin := fun s => (none, s)
  TxExec := fun _ s => (none, s)
  TxCommit := fun s => (none, s)
  TxRollback := fun s => (none, s)

/-! ## The command `record` of `cmd/migrations/main.go` -/

/-- What `cmdRecord` returns, with the store it leaves and the calls it made. -/
structure CmdResult (σ : Type) where
  err : Error
  db : σ
  trace : List Call

/-- The function `cmdRecord` of `cmd/migrations/main.go`.  The two `Println`
calls go to the `logrus` entry. -/
def cmdRecord {σ : Type} (migID : String) (db : Database σ) (s : σ) : CmdResult σ :=
  if migID = "" then
    { err := some "migration id cannot be empty", db := s, trace := [] }
  else
    let t1 := [Call.println [LogArg.str "Force adding already executed migration record..."]]
    let r := db.IsAlreadyExecuted migID s
    let t2 := t1 ++ [Call.isAlreadyExecuted migID r.1]
    match r.1 with
    | .error e =>
      { err := some ("could not check if migration is already executed: " ++ e),
        db := r.2, trace := t2 }
    | .ok alreadyExecuted =>
      if alreadyExecuted then
        { err := some ("migration " ++ migID ++ " is already executed"), db := r.2, trace := t2 }
      else
        let r2 := db.RecordMigration migID 0 r.2
        let t3 := t2 ++ [Call.recordMigration migID 0 r2.1]
        match r2.1 with
        | some e => { err := some ("failed to record migration: " ++ e), db := r2.2, trace := t3 }
        | none =>
          { err := none, db := r2.2,
            trace := t3 ++ [Call.println [LogArg.str "Force added executed migration"]] }

/-- The `RecordMigration` calls of a trace, each with its ID and duration. -/
def recordCalls (t : List Call) : List (String × Int) :=
  t.filterMap (fun c => match c with
    | .recordMigration id d _ => some (id, d)
    | _ => none)

/-- The text `sub` occurs in the text `s`. -/
def containsText (s sub : String) : Prop := sub.data <:+: s.data

instance containsText.decidable (s sub : String) : Decidable (containsText s sub) := by
  unfold containsText
  infer_instance

/-! ## `SourceDir` of `source.go` -/

/-- What opening and reading a non-directory file gives: its contents, or the
error of `os.Open`, or the error of `io.ReadAll`. -/
inductive FileData where
  | content (c : String)
  | openFails (err : String)
  | readFails (err : String)
  deriving DecidableEq, Repr

/-- A directory tree as `filepath.Walk` meets it: a non-directory file, a
directory with its entries in the order `readDirNames` returns them (sorted by
name), a directory that cannot be listed, or a name on which `Lstat` fails. -/
inductive FsNode where
  | file (data : FileData)
  | dir (entries : List (String × FsNode))
  | unreadableDir (err : String)
  | noStat (err : String)

/-- A path: the root it starts from and the names below it, outermost first. -/
structure Path where
  root : String
  names : List String
  deriving DecidableEq, Repr

/-- The function `filepath.Join` on a path and a name of a directory entry. -/
def Path.Join (path : Path) (name : String) : Path :=
  { path with names := path.names ++ [name] }

/-- The path as text: the names joined to the root with the separator (the
cleaning `filepath.Join` applies to the root part is left out; it does not
change the last element). -/
def Path.str (path : Path) : String :=
  path.names.foldl (fun acc name => acc ++ "/" ++ name) path.root

/-- The function `filepath.Base`: the last element of the path, after trailing
separators are stripped; `.` for the empty path and `/` for one of separators
only. -/
def Base (path : String) : String :=
  if path = "" then "."
  else
    let stripped := (path.data.reverse.dropWhile (· == '/')).reverse
    let last := (stripped.reverse.takeWhile (· != '/')).reverse
    if last = [] then "/" else String.mk last

/-- The callback type `filepath.WalkFunc` over what the callback accumulates:
the path, `info.IsDir()` (`none` for a nil `info`) and the error of the walk;
it returns an error (`SkipDir` is not modelled). -/
abbrev WalkFunc (α : Type) := Path → Option Bool → Error → α → Error × α

mutual
/-- The function `walk` of `path/filepath`: the node is what `Lstat` gave. -/
def walk {α : Type} (path : Path) (fn : WalkFunc α) : FsNode → α → Error × α
  | .file _, acc => fn path (some false) none acc
  | .dir entries, acc =>
    let r := fn path (some true) none acc
    match r.1 with
    | some e => (some e, r.2)
    | none => walkNames path fn entries r.2
  | .unreadableDir e, acc => fn path (some true) (some e) acc
  | .noStat e, acc => fn path none (some e) acc
/-- The loop of `walk` over the names of a directory. -/
def walkNames {α : Type} (path : Path) (fn : WalkFunc α) : List (String × FsNode) → α → Error × α
  | [], acc => (none, acc)
  | (name, child) :: rest, acc =>
    let r := walk (path.Join name) fn child acc
    match r.1 with
    | some e => (some e, r.2)
    | none => walkNames path fn rest r.2
end

/-- The function `filepath.Walk`. -/
def Walk {α : Type} (root : String) (tree : FsNode) (fn : WalkFunc α) (acc : α) : Error × α :=
  walk { root := root, names := [] } fn tree acc

mutual
/-- The node at the given names below a node. -/
def FsNode.at : FsNode → List String → Option FsNode
  | node, [] => some node
  | .dir entries, name :: rest => FsNode.atIn entries name rest
  | _, _ :: _ => none
/-- The node at the given names below the entry of that name. -/
def FsNode.atIn : List (String × FsNode) → String → List String → Option FsNode
  | [], _, _ => none
  | (n, child) :: es, name, rest =>
    if n = name then child.at rest else FsNode.atIn es name rest
end

/-- The function `os.Open`: the file at the path, or an error. -/
def osOpen (tree : FsNode) (path : Path) : Except String FsNode :=
  match tree.at path.names with
  | none => .error "no such file or directory"
  | some (.noStat e) => .error e
  | some (.file (.openFails e)) => .error e
  | some node => .ok node

/-- The function `io.ReadAll` on an open file. -/
def ioReadAll : FsNode → Except String String
  | .file (.content c) => .ok c
  | .file (.readFails e) => .error e
  | .file (.openFails e) => .error e
  | .dir _ => .error "is a directory"
  | .unreadableDir _ => .error "is a directory"
  | .noStat e => .error e

/-- The struct `SourceDir`. -/
structure SourceDir where
  Dir : String

/-- The function literal passed to `filepath.Walk` in `SourceDir.filepaths`,
with the slice `paths` it appends to. -/
def SourceDir.filepathsFn : WalkFunc (List Path) := fun path info err paths =>
  match err with
  | some e => (some e, paths)
  | none =>
    if info = some true then (none, paths)
    else (none, paths ++ [path])

/-- The method `SourceDir.filepaths`, on the tree found at `Dir`. -/
def SourceDir.filepaths (sr : SourceDir) (tree : FsNode) : List Path × Error :=
  let r := Walk sr.Dir tree SourceDir.filepathsFn []
  (r.2, r.1)

/-- The loop of `SourceDir.Migrations` over the paths. -/
def SourceDir.readFiles (tree : FsNode) : List Path → List Migration → Except String (List Migration)
  | [], migrations => .ok migrations
  | path :: rest, migrations =>
    match osOpen tree path with
    | .error e => .error ("could not open file " ++ path.str ++ ": " ++ e)
    | .ok f =>
      match ioReadAll f with
      | .error e => .error ("could not read contents of file " ++ path.str ++ ": " ++ e)
      | .ok content =>
        SourceDir.readFiles tree rest
          (migrations ++ [{ ID := Base path.str, Content := content }])

/-- The method `SourceDir.Migrations`, on the tree found at `Dir`. -/
def SourceDir.Migrations (sr : SourceDir) (tree : FsNode) : Except String (List Migration) :=
  match sr.filepaths tree with
  | (_, some err) => .error ("could get migration files paths: " ++ err)
  | (paths, none) => SourceDir.readFiles tree paths []

/-! ## Vocabulary of the statements -/

/-- A database call as the claims see it: which migration (or ID) and whether it succeeded. -/
inductive DbEvent where
  | migrate (mig : Migration) (ok : Bool)
  | record (id : String) (ok : Bool)
  deriving DecidableEq, Repr

/-- The `Migrate` or `RecordMigration` call behind a trace entry, if it is one. -/
def Call.dbEvent : Call → Option DbEvent
  | .migrate mig err => some (.migrate mig err.isNone)
  | .recordMigration id _ err => some (.record id err.isNone)
  | _ => none

/-- The `Migrate` and `RecordMigration` calls of a trace, in order. -/
def dbEvents (t : List Call) : List DbEvent := t.filterMap Call.dbEvent

/-- The migrations of the source whose ID is not in the history, in source order. -/
def unapplied (src : List Migration) (history : List String) : List Migration :=
  src.filter (fun m => !history.contains m.ID)

/-- The calls made for one migration that is executed and recorded. -/
def okEvents (ms : List Migration) : List DbEvent :=
  ms.flatMap (fun m => [DbEvent.migrate m true, DbEvent.record m.ID true])

/-- The database has a history, `hist`, the IDs recorded so far:
`ExecutedMigrations` succeeds, returns records with exactly these IDs, and
leaves the history as it is. -/
structure ReadsHistory {σ : Type} (db : Database σ) (hist : σ → List String) : Prop where
  read_ok : ∀ s, ∃ h, (db.ExecutedMigrations s).1 = .ok h ∧ h.map (·.ID) = hist s
  read_frame : ∀ s, hist (db.ExecutedMigrations s).2 = hist s

/-- `RecordMigration` always succeeds and appends the ID to the history, which
nothing else changes. -/
structure AppendsHistory {σ : Type} (db : Database σ) (hist : σ → List String) : Prop where
  reads : ReadsHistory db hist
  migrate_frame : ∀ m s, hist (db.Migrate m s).2 = hist s
  record_ok : ∀ id d s, (db.RecordMigration id d s).1 = none
  record_appends : ∀ id d s, hist (db.RecordMigration id d s).2 = hist s ++ [id]

/-- `Migrate` and `RecordMigration` always succeed, `RecordMigration` makes the
ID appear in the history, and an ID in the history stays there. -/
structure RecordsForGood {σ : Type} (db : Database σ) (hist : σ → List String) : Prop where
  reads : ReadsHistory db hist
  migrate_ok : ∀ m s, (db.Migrate m s).1 = none
  migrate_keeps : ∀ m s x, x ∈ hist s → x ∈ hist (db.Migrate m s).2
  record_ok : ∀ id d s, (db.RecordMigration id d s).1 = none
  record_adds : ∀ id d s, id ∈ hist (db.RecordMigration id d s).2
  record_keeps : ∀ id d s x, x ∈ hist s → x ∈ hist (db.RecordMigration id d s).2

/-- The database keeps a history, `hist`, listed in any order (oldest or newest
first): what `ExecutedMigrations` returns has the IDs of the history, a
successful `RecordMigration` adds its ID to it once, and nothing else changes
which IDs it holds or how often. -/
structure KeepsHistory {σ : Type} (db : Database σ) (hist : σ → List String) : Prop where
  read : ∀ s h, (db.ExecutedMigrations s).1 = .ok h → ∀ id, id ∈ h.map (·.ID) ↔ id ∈ hist s
  read_frame : ∀ s, (hist (db.ExecutedMigrations s).2).Perm (hist s)
  migrate_frame : ∀ m s, (hist (db.Migrate m s).2).Perm (hist s)
  record_ok : ∀ id d s, (db.RecordMigration id d s).1 = none →
    (hist (db.RecordMigration id d s).2).Perm (id :: hist s)
  record_failed : ∀ id d s, (db.RecordMigration id d s).1 ≠ none →
    (hist (db.RecordMigration id d s).2).Perm (hist s)

/-- The history of a `DatabaseMock`: the IDs of its `executed` slice. -/
def DatabaseMock.history (dm : DatabaseMock) : List String := dm.executed.map (·.ID)

/-! ## Databases and upgraders used as concrete inputs -/

/-- An upgrader over the test double, without a logger, as the tests build it. -/
def mockUpgrader (src : List Migration) : Upgrader DatabaseMock Unit :=
  { Logger := none, Source := SourceDirect src, Database := DatabaseMock.database }

/-- A world around a `DatabaseMock`. -/
def mockWorld (dm : DatabaseMock) : World DatabaseMock Unit :=
  { db := dm, log := (), tick := 0 }

/-- A migration with the given ID and no content, as in the tests. -/
def migID (id : String) : Migration := { ID := id, Content := "" }

/-- The record the mock keeps for an ID. -/
def mockRecord (id : String) : Executed := { ID := id, DurationMS := 1000000, ExecutedAt := 0 }

/-- A database that lists its history newest first: `RecordMigration` puts the
ID in front; nothing fails. -/
def newestFirstDatabase : Database (List String) where
  ExecutedMigrations := fun s => (.ok (s.map mockRecord), s)
  RecordMigration := fun id _ s => (none, id :: s)
  Migrate := fun _ s => (none, s)
  IsAlreadyExecuted := fun id s => (.ok (s.contains id), s)

/-- An upgrader over `newestFirstDatabase`, without a logger. -/
def newestFirstUpgrader (src : List Migration) : Upgrader (List String) Unit :=
  { Logger := none, Source := SourceDirect src, Database := newestFirstDatabase }

/-- A database whose `Migrate` succeeds (the store keeps the IDs of the
migrations applied) and whose `RecordMigration` fails: the history stays
empty. -/
def recordFailsDatabase : Database (List String) where
  ExecutedMigrations := fun s => (.ok [], s)
  RecordMigration := fun _ _ s => (some "could not insert record", s)
  Migrate := fun mig s => (none, s ++ [mig.ID])
  IsAlreadyExecuted := fun _ s => (.ok false, s)

/-- An upgrader over `recordFailsDatabase`, without a logger. -/
def recordFailsUpgrader (src : List Migration) : Upgrader (List String) Unit :=
  { Logger := none, Source := SourceDirect src, Database := recordFailsDatabase }

/-- A database that keeps the recorded IDs in a list and on which nothing
fails. -/
def memoryDatabase : Database (List String) where
  ExecutedMigrations := fun s => (.ok (s.map mockRecord), s)
  RecordMigration := fun id _ s => (none, s ++ [id])
  Migrate := fun _ s => (none, s)
  IsAlreadyExecuted := fun id s => (.ok (s.contains id), s)

/-- An upgrader over `memoryDatabase`, without a logger. -/
def memoryUpgrader (src : List Migration) : Upgrader (List String) Unit :=
  { Logger := none, Source := SourceDirect src, Database := memoryDatabase }

/-- A database whose history cannot be read. -/
def unreadableDatabase : Database (List String) where
  ExecutedMigrations := fun s => (.error "connection refused", s)
  RecordMigration := fun id _ s => (none, s ++ [id])
  Migrate := fun _ s => (none, s)
  IsAlreadyExecuted := fun _ s => (.error "connection refused", s)

/-- An upgrader over `unreadableDatabase`, without a logger. -/
def unreadableUpgrader (src : List Migration) : Upgrader (List String) Unit :=
  { Logger := none, Source := SourceDirect src, Database := unreadableDatabase }

/-- An upgrader whose source cannot be read. -/
def noSourceUpgrader : Upgrader (List String) Unit :=
  { Logger := none, Source := { Migrations := .error "no such directory" },
    Database := memoryDatabase }

/-- The IDs passed to `RecordMigration`, in call order. -/
def recorded (evs : List DbEvent) : List String :=
  evs.filterMap (fun ev => match ev with
    | .migrate _ _ => none
    | .record id _ => some id)

/-- Whether the call failed. -/
def DbEvent.failed : DbEvent → Bool
  | .migrate _ ok => !ok
  | .record _ ok => !ok

/-- The migrations passed to `Migrate`, in call order. -/
def migrated (evs : List DbEvent) : List Migration :=
  evs.filterMap (fun ev => match ev with
    | .migrate m _ => some m
    | .record _ _ => none)

/-- Whether the call is a `Println` of the logger. -/
def Call.isLog : Call → Bool
  | .println _ => true
  | _ => false

/-- The calls of a trace that go to the source or the database: the trace
without the calls to the logger. -/
def withoutLog (t : List Call) : List Call := t.filter (fun c => !c.isLog)

/-- What a loop state shows apart from the logger: the store, the clock
readings taken, the calls to source and database, `executedNow` and `err`. -/
def LoopState.view {σ L : Type} (st : LoopState σ L) :
    σ × Nat × List Call × List Migration × Error :=
  (st.world.db, st.world.tick, withoutLog st.world.trace, st.executedNow, st.err)

/-- What a run of `Do` shows apart from the logger: result, error, store, clock
readings taken and the calls to source and database. -/
def DoResult.view {σ L : Type} (r : DoResult σ L) :
    Option UpgradeResult × Error × σ × Nat × List Call :=
  (r.result, r.err, r.world.db, r.world.tick, withoutLog r.trace)

mutual
/-- The non-directory files below a node, in the order in which the walk
meets them, each with the names that lead to it from the node. -/
def FsNode.files : FsNode → List (List String × FileData)
  | .file data => [([], data)]
  | .dir entries => FsNode.filesIn entries
  | .unreadableDir _ => []
  | .noStat _ => []
/-- The non-directory files below the entries of a directory. -/
def FsNode.filesIn : List (String × FsNode) → List (List String × FileData)
  | [] => []
  | (name, child) :: rest =>
    child.files.map (fun f => (name :: f.1, f.2)) ++ FsNode.filesIn rest
end

mutual
/-- The walk meets no error: `Lstat` succeeds on every name and every
directory can be listed. -/
def FsNode.walkable : FsNode → Bool
  | .file _ => true
  | .dir entries => FsNode.walkableIn entries
  | .unreadableDir _ => false
  | .noStat _ => false
/-- The walk meets no error below the entries of a directory. -/
def FsNode.walkableIn : List (String × FsNode) → Bool
  | [] => true
  | (_, child) :: rest => child.walkable && FsNode.walkableIn rest
end

mutual
/-- No directory lists a name twice. -/
def FsNode.namesDistinct : FsNode → Bool
  | .dir entries => FsNode.namesDistinctIn entries
  | _ => true
/-- The entries have different names, and so below each of them. -/
def FsNode.namesDistinctIn : List (String × FsNode) → Bool
  | [] => true
  | (name, child) :: rest =>
    !(rest.map (·.1)).contains name && child.namesDistinct && FsNode.namesDistinctIn rest
end

mutual
/-- Every directory lists its entries by ascending name, as `readDirNames`
returns them: each name is below all the names after it, character by
character. -/
def FsNode.namesSorted : FsNode → Bool
  | .dir entries => FsNode.namesSortedIn entries
  | _ => true
/-- The entries are listed by ascending name, and so below each of them. -/
def FsNode.namesSortedIn : List (String × FsNode) → Bool
  | [] => true
  | (name, child) :: rest =>
    (rest.map (·.1)).all (fun n => decide (name.data < n.data)) && child.namesSorted
      && FsNode.namesSortedIn rest
end

/-- The file can be opened and read. -/
def FileData.isContent : FileData → Bool
  | .content _ => true
  | _ => false

/-- The contents of the file, empty if it cannot be opened or read. -/
def FileData.text : FileData → String
  | .content c => c
  | _ => ""

/-- The tree is readable: the walk meets no error and every non-directory file
can be opened and read. -/
def FsNode.readable (tree : FsNode) : Bool :=
  tree.walkable && tree.files.all (fun f => f.2.isContent)

/-- The path at the given names below a path. -/
def Path.below (path : Path) (names : List String) : Path :=
  { path with names := path.names ++ names }

/-- The entries of the directory of `TestSourceDir`: three migration files. -/
def testDirEntries : List (String × FsNode) :=
  [("0.migration.sql", .file (.content "CREATE EXTENSION IF NOT EXISTS \"uuid-ossp\";")),
   ("1.migration.sql", .file (.content "CREATE TABLE users (...);")),
   ("2.migration.sql", .file (.content "CREATE TABLE user_sessions (...);"))]

/-- The directory of `TestSourceDir`. -/
def testDirTree : FsNode := .dir testDirEntries

/-- A directory with a subdirectory and a file that cannot be read. -/
def brokenDirTree : FsNode :=
  .dir [("0.migration.sql", .file (.content "CREATE TABLE first ();")),
        ("more", .dir [("1.migration.sql", .file (.readFails "input/output error"))])]

/-- A name a directory can list: not empty and without a separator. -/
def validName (name : String) : Bool :=
  !name.data.isEmpty && !name.data.contains '/'

mutual
/-- Every name listed in the tree is a valid name. -/
def FsNode.validNames : FsNode → Bool
  | .dir entries => FsNode.validNamesIn entries
  | _ => true
/-- The names of the entries are valid, and so below each of them. -/
def FsNode.validNamesIn : List (String × FsNode) → Bool
  | [] => true
  | (name, child) :: rest =>
    validName name && child.validNames && FsNode.validNamesIn rest
end

/-- Whether the node is a non-directory file. -/
def FsNode.isFile : FsNode → Bool
  | .file _ => true
  | _ => false

/-- The names of the non-directory files below a node, in walk order: for each
file the last of the names that lead to it. -/
def FsNode.fileNames (node : FsNode) : List String :=
  node.files.map (fun f => f.1.getLast?.getD "")

/-- A directory with the same file name in two subdirectories. -/
def twoSubdirsTree : FsNode :=
  .dir [("a", .dir [("1.sql", .file (.content "CREATE TABLE first ();"))]),
        ("b", .dir [("1.sql", .file (.content "CREATE TABLE second ();"))])]

theorem lookup_mapSet (m : List (String × Executed)) (k : String) (v : Executed) (id : String) :
    ((mapSet m k v).lookup id).isSome = (id == k || (m.lookup id).isSome) := by
  unfold mapSet
  by_cases h : id = k
  · subst h; simp [List.lookup]
  · have h' : (id == k) = false := by simpa using h
    simp only [List.lookup, h', Bool.false_or]
    induction m with
    | nil => simp
    | cons p ps ih =>
      obtain ⟨a, b⟩ := p
      by_cases hp : a = k
      · subst hp
        simp [List.filter, List.lookup, h', ih]
      · have hpk : (a != k) = true := by simpa using hp
        simp only [List.filter, hpk]
        by_cases hip : id = a
        · subst hip; simp [List.lookup]
        · have : (id == a) = false := by simpa using hip
          simp [List.lookup, this, ih]

theorem lookup_foldl_mapSet (l : List Executed) (m : List (String × Executed)) (id : String) :
    ((l.foldl (fun m mig => mapSet m mig.ID mig) m).lookup id).isSome
      = ((l.map (·.ID)).contains id || (m.lookup id).isSome) := by
  induction l generalizing m with
  | nil => simp
  | cons e es ih =>
    simp only [List.foldl, ih, lookup_mapSet, List.map, List.contains_cons]
    cases (id == e.ID) <;> cases (List.contains (es.map (·.ID)) id) <;> simp

theorem lookup_buildExecutedByID (l : List Executed) (id : String) :
    ((buildExecutedByID l).lookup id).isSome = (l.map (·.ID)).contains id := by
  unfold buildExecutedByID
  rw [lookup_foldl_mapSet]; simp

/-! ## The loop of `Upgrader.Do` -/

theorem dbEvents_append (t t' : List Call) : dbEvents (t ++ t') = dbEvents t ++ dbEvents t' := by
  simp [dbEvents, List.filterMap_append]

theorem Println_db {σ L : Type} (u : Upgrader σ L) (v : List LogArg) (w : Run σ L) :
    (u.Println v w).db = w.db := by
  unfold Upgrader.Println; cases u.Logger <;> rfl

theorem Println_tick {σ L : Type} (u : Upgrader σ L) (v : List LogArg) (w : Run σ L) :
    (u.Println v w).tick = w.tick := by
  unfold Upgrader.Println; cases u.Logger <;> rfl

theorem Println_dbEvents {σ L : Type} (u : Upgrader σ L) (v : List LogArg) (w : Run σ L) :
    dbEvents (u.Println v w).trace = dbEvents w.trace := by
  unfold Upgrader.Println; cases u.Logger <;> simp [dbEvents, Call.dbEvent]

theorem dbEvents_migrate (mig : Migration) (err : Error) :
    dbEvents [Call.migrate mig err] = [DbEvent.migrate mig err.isNone] := rfl

theorem dbEvents_record (id : String) (d : Int) (err : Error) :
    dbEvents [Call.recordMigration id d err] = [DbEvent.record id err.isNone] := rfl

theorem okEvents_append (a b : List Migration) : okEvents (a ++ b) = okEvents a ++ okEvents b := by
  simp [okEvents, List.flatMap_append]

/-- Migrations whose ID is in the map are skipped: the loop over the source is
the loop over its unapplied part. -/
theorem loop_unapplied {σ L : Type} (u : Upgrader σ L) (now : Clock) (h : List Executed)
    (src : List Migration) (st : LoopState σ L) :
    u.loop now (buildExecutedByID h) src st
      = u.loop now (buildExecutedByID h) (unapplied src (h.map (·.ID))) st := by
  induction src generalizing st with
  | nil => rfl
  | cons m ms ih =>
    by_cases hm : (h.map (·.ID)).contains m.ID = true
    · have hl : ((buildExecutedByID h).lookup m.ID).isSome = true := by
        rw [lookup_buildExecutedByID]; exact hm
      have hu : unapplied (m :: ms) (h.map (·.ID)) = unapplied ms (h.map (·.ID)) := by
        unfold unapplied; rw [List.filter_cons, hm]; rfl
      rw [hu, Upgrader.loop, if_pos hl, ih]
    · have hm' : (h.map (·.ID)).contains m.ID = false := by simpa using hm
      have hl : ¬ ((buildExecutedByID h).lookup m.ID).isSome = true := by
        rw [lookup_buildExecutedByID, hm']; simp
      have hu : unapplied (m :: ms) (h.map (·.ID)) = m :: unapplied ms (h.map (·.ID)) := by
        unfold unapplied; rw [List.filter_cons, hm']; rfl
      rw [hu, Upgrader.loop, Upgrader.loop, if_neg hl, if_neg hl]
      simp only [ih]

theorem unapplied_not_in_map (h : List Executed) (src : List Migration) :
    ∀ m ∈ unapplied src (h.map (·.ID)), ((buildExecutedByID h).lookup m.ID).isSome = false := by
  intro m hm
  rw [lookup_buildExecutedByID]
  simp only [unapplied, List.mem_filter] at hm
  simpa using hm.2

theorem loop_cons_attempt {σ L : Type} (u : Upgrader σ L) (now : Clock)
    (ebi : List (String × Executed)) (mig : Migration) (rest : List Migration)
    (st : LoopState σ L) (h : (ebi.lookup mig.ID).isSome = false) :
    u.loop now ebi (mig :: rest) st
      = if (u.attempt now mig st).2 then u.loop now ebi rest (u.attempt now mig st).1
        else (u.attempt now mig st).1 := by
  have hl : ¬ (ebi.lookup mig.ID).isSome = true := by rw [h]; simp
  rw [Upgrader.loop, if_neg hl]
  unfold Upgrader.attempt
  simp only
  split
  · simp
  · split <;> simp

theorem loop_cons_skip {σ L : Type} (u : Upgrader σ L) (now : Clock)
    (ebi : List (String × Executed)) (mig : Migration) (rest : List Migration)
    (st : LoopState σ L) (h : (ebi.lookup mig.ID).isSome = true) :
    u.loop now ebi (mig :: rest) st = u.loop now ebi rest st := by
  rw [Upgrader.loop, if_pos h]

/-- The three ways an iteration can go, with the calls it makes and the store
it leaves: `Migrate` fails; `Migrate` succeeds and `RecordMigration` fails;
both succeed. -/
theorem attempt_cases {σ L : Type} (u : Upgrader σ L) (now : Clock) (mig : Migration)
    (st : LoopState σ L) :
    (∃ e, (u.Database.Migrate mig st.world.db).1 = some e ∧
        (u.attempt now mig st).2 = false ∧
        (u.attempt now mig st).1.err = some e ∧
        (u.attempt now mig st).1.executedNow = st.executedNow ∧
        dbEvents (u.attempt now mig st).1.world.trace
          = dbEvents st.world.trace ++ [DbEvent.migrate mig false] ∧
        (u.attempt now mig st).1.world.db = (u.Database.Migrate mig st.world.db).2) ∨
    (∃ d, (u.Database.Migrate mig st.world.db).1 = none ∧
        (u.Database.RecordMigration mig.ID d (u.Database.Migrate mig st.world.db).2).1 ≠ none ∧
        (u.attempt now mig st).2 = false ∧
        (u.attempt now mig st).1.err = none ∧
        (u.attempt now mig st).1.executedNow = st.executedNow ∧
        dbEvents (u.attempt now mig st).1.world.trace
          = dbEvents st.world.trace ++ [DbEvent.migrate mig true, DbEvent.record mig.ID false] ∧
        (u.attempt now mig st).1.world.db
          = (u.Database.RecordMigration mig.ID d (u.Database.Migrate mig st.world.db).2).2) ∨
    (∃ d, (u.Database.Migrate mig st.world.db).1 = none ∧
        (u.Database.RecordMigration mig.ID d (u.Database.Migrate mig st.world.db).2).1 = none ∧
        (u.attempt now mig st).2 = true ∧
        (u.attempt now mig st).1.err = none ∧
        (u.attempt now mig st).1.executedNow = st.executedNow ++ [mig] ∧
        dbEvents (u.attempt now mig st).1.world.trace
          = dbEvents st.world.trace ++ [DbEvent.migrate mig true, DbEvent.record mig.ID true] ∧
        (u.attempt now mig st).1.world.db
          = (u.Database.RecordMigration mig.ID d (u.Database.Migrate mig st.world.db).2).2) := by
  unfold Upgrader.attempt
  simp only [Println_db]
  cases hM : (u.Database.Migrate mig st.world.db).1 with
  | some e =>
    left
    refine ⟨e, rfl, ?_⟩
    simp [dbEvents_append, Println_dbEvents, dbEvents_migrate, Println_db]
  | none =>
    right
    simp only
    generalize hd : now ((u.Println [LogArg.str "Executing migration", LogArg.str mig.ID]
      st.world).tick + 1) - now (u.Println [LogArg.str "Executing migration",
      LogArg.str mig.ID] st.world).tick = d
    cases hR : (u.Database.RecordMigration mig.ID d (u.Database.Migrate mig st.world.db).2).1 with
    | some e2 =>
      left
      refine ⟨d, trivial, ?_⟩
      simp [dbEvents_append, Println_dbEvents, dbEvents_migrate, dbEvents_record, Println_db, hR]
    | none =>
      right
      refine ⟨d, trivial, ?_⟩
      simp [dbEvents_append, Println_dbEvents, dbEvents_migrate, dbEvents_record, Println_db, hR]

/-- How the loop ends on a list of migrations none of which is in the map: `k`
migrations are executed and recorded, then either the list is exhausted, or
`Migrate` fails on the next one (and `err` is set), or `RecordMigration` fails
on the next one (and `err` stays nil). -/
theorem loop_spec {σ L : Type} (u : Upgrader σ L) (now : Clock)
    (ebi : List (String × Executed)) (un : List Migration)
    (hun : ∀ m ∈ un, (ebi.lookup m.ID).isSome = false)
    (st : LoopState σ L) (hst : st.err = none) :
    ∃ k tail, k ≤ un.length ∧
      (u.loop now ebi un st).executedNow = st.executedNow ++ un.take k ∧
      dbEvents (u.loop now ebi un st).world.trace
        = dbEvents st.world.trace ++ okEvents (un.take k) ++ tail ∧
      ((k = un.length ∧ tail = [] ∧ (u.loop now ebi un st).err = none) ∨
       (∃ m e s, un[k]? = some m ∧ (u.Database.Migrate m s).1 = some e ∧
          tail = [DbEvent.migrate m false] ∧ (u.loop now ebi un st).err = some e) ∨
       (∃ m d s, un[k]? = some m ∧ (u.Database.RecordMigration m.ID d s).1 ≠ none ∧
          tail = [DbEvent.migrate m true, DbEvent.record m.ID false] ∧
          (u.loop now ebi un st).err = none)) := by
  induction un generalizing st with
  | nil =>
    exact ⟨0, [], le_refl _, by simp [Upgrader.loop], by simp [Upgrader.loop, okEvents],
      Or.inl ⟨rfl, rfl, by simpa [Upgrader.loop] using hst⟩⟩
  | cons m ms ih =>
    have hms : ∀ x ∈ ms, (ebi.lookup x.ID).isSome = false :=
      fun x hx => hun x (List.mem_cons_of_mem _ hx)
    rw [loop_cons_attempt u now ebi m ms st (hun m (List.mem_cons_self _ _))]
    rcases attempt_cases u now m st with
      ⟨e, hmf, hc, herr, hex, htr, _⟩ | ⟨d, _, hrf, hc, herr, hex, htr, _⟩ |
      ⟨d, _, _, hc, herr, hex, htr, _⟩
    · rw [hc]
      refine ⟨0, [DbEvent.migrate m false], Nat.zero_le _, by simp [hex], ?_, ?_⟩
      · simp [htr, okEvents]
      · exact Or.inr (Or.inl ⟨m, e, _, by simp, hmf, rfl, by simpa using herr⟩)
    · rw [hc]
      refine ⟨0, [DbEvent.migrate m true, DbEvent.record m.ID false], Nat.zero_le _,
        by simp [hex], ?_, ?_⟩
      · simp [htr, okEvents]
      · exact Or.inr (Or.inr ⟨m, d, _, by simp, hrf, rfl, by simpa using herr⟩)
    · rw [hc]
      obtain ⟨k, tail, hk, hex2, htr2, hend⟩ := ih hms (u.attempt now m st).1 herr
      refine ⟨k + 1, tail, by simpa using hk, ?_, ?_, ?_⟩
      · simp [hex2, hex]
      · simp [htr2, htr, okEvents]
      · simp only [if_true]
        rcases hend with ⟨h1, h2, h3⟩ | ⟨x, e, s1, h1, hf, h2, h3⟩ | ⟨x, d2, s2, h1, hf, h2, h3⟩
        · exact Or.inl ⟨by simp [h1], h2, h3⟩
        · exact Or.inr (Or.inl ⟨x, e, s1, by simpa using h1, hf, h2, h3⟩)
        · exact Or.inr (Or.inr ⟨x, d2, s2, by simpa using h1, hf, h2, h3⟩)

/-- When the source yields a non-empty list and the history is read, `Do`
returns what its loop over the unapplied migrations leaves. -/
theorem Do_of_read_ok {σ L : Type} (u : Upgrader σ L) (now : Clock) (w : World σ L)
    (src : List Migration) (h : List Executed)
    (hsrc : u.Source.Migrations = .ok src) (hne : src ≠ [])
    (hread : (u.Database.ExecutedMigrations w.db).1 = .ok h) :
    (u.Do now w).result
        = some { Executed := (u.loop now (buildExecutedByID h)
            (unapplied src (h.map (·.ID))) (loopStart u w)).executedNow } ∧
    ((u.Do now w).err = none ↔
        (u.loop now (buildExecutedByID h)
            (unapplied src (h.map (·.ID))) (loopStart u w)).err = none) ∧
    (u.Do now w).world.db = (u.loop now (buildExecutedByID h)
            (unapplied src (h.map (·.ID))) (loopStart u w)).world.db ∧
    (u.Do now w).trace = (u.loop now (buildExecutedByID h)
            (unapplied src (h.map (·.ID))) (loopStart u w)).world.trace := by
  have hlen : ¬ src.length = 0 := by simpa using hne
  rw [← loop_unapplied]
  unfold Upgrader.Do
  simp only [hsrc, hlen, if_false, hread]
  change _ ∧ _ ∧ _ ∧ _
  cases hE : (u.loop now (buildExecutedByID h) src (loopStart u w)).err with
  | none =>
    have : (u.loop now (buildExecutedByID h) src
        { world := { db := (u.Database.ExecutedMigrations w.db).2, log := w.log, tick := w.tick,
                     trace := [Call.srcMigrations] ++ [Call.executedMigrations none] },
          executedNow := [], err := none }).err = none := hE
    simp only [this]
    exact ⟨rfl, by simp [Run.finish], rfl, rfl⟩
  | some e =>
    have : (u.loop now (buildExecutedByID h) src
        { world := { db := (u.Database.ExecutedMigrations w.db).2, log := w.log, tick := w.tick,
                     trace := [Call.srcMigrations] ++ [Call.executedMigrations none] },
          executedNow := [], err := none }).err = some e := hE
    simp only [this]
    exact ⟨rfl, by simp [Run.finish], rfl, rfl⟩

/-- With a database that records by appending, the history after the loop is
the history before it followed by the IDs of the migrations added to
`executedNow`. -/
theorem loop_history {σ L : Type} (u : Upgrader σ L) (now : Clock)
    (hist : σ → List String) (hdb : AppendsHistory u.Database hist)
    (ebi : List (String × Executed)) (un : List Migration)
    (hun : ∀ m ∈ un, (ebi.lookup m.ID).isSome = false) (st : LoopState σ L) :
    ∃ ex, (u.loop now ebi un st).executedNow = st.executedNow ++ ex ∧
      hist (u.loop now ebi un st).world.db = hist st.world.db ++ ex.map (·.ID) := by
  induction un generalizing st with
  | nil => exact ⟨[], by simp [Upgrader.loop], by simp [Upgrader.loop]⟩
  | cons m ms ih =>
    have hms : ∀ x ∈ ms, (ebi.lookup x.ID).isSome = false :=
      fun x hx => hun x (List.mem_cons_of_mem _ hx)
    rw [loop_cons_attempt u now ebi m ms st (hun m (List.mem_cons_self _ _))]
    rcases attempt_cases u now m st with
      ⟨e, _, hc, _, hex, _, hdb1⟩ | ⟨d, _, hrf, _⟩ | ⟨d, _, _, hc, _, hex, _, hdb1⟩
    · rw [hc]
      exact ⟨[], by simp [hex], by simp [hdb1, hdb.migrate_frame]⟩
    · exact absurd (hdb.record_ok _ _ _) hrf
    · rw [hc]
      obtain ⟨ex, h1, h2⟩ := ih hms (u.attempt now m st).1
      refine ⟨m :: ex, by simp [h1, hex], ?_⟩
      simp [h2, hdb1, hdb.record_appends, hdb.migrate_frame]

theorem migrate_false_not_mem_okEvents (ms : List Migration) (m : Migration) :
    DbEvent.migrate m false ∉ okEvents ms := by
  simp [okEvents, List.mem_flatMap]

theorem DatabaseMock.appendsHistory :
    AppendsHistory DatabaseMock.database DatabaseMock.history where
  reads := ⟨fun s => ⟨s.executed, rfl, rfl⟩, fun _ => rfl⟩
  migrate_frame := by
    intro m s
    simp only [DatabaseMock.database]
    split <;> [split; skip] <;> rfl
  record_ok := fun _ _ _ => rfl
  record_appends := by
    intro id d s
    simp [DatabaseMock.database, DatabaseMock.history]

theorem take_one_drop_of_getElem? {α : Type} (l : List α) (k : Nat) (a : α)
    (h : l[k]? = some a) : (l.drop k).take 1 = [a] := by
  induction l generalizing k with
  | nil => simp at h
  | cons x xs ih =>
    cases k with
    | zero => simp at h; simp [h]
    | succ n => simp at h; simpa using ih n h

/-- The run of `Do` against a database that records by appending: `k` of the
unapplied migrations are executed and recorded, in source order, and the run
stops at the first failing `Migrate`, if any. -/
theorem Do_appending_spec {σ L : Type} (u : Upgrader σ L) (now : Clock) (w : World σ L)
    (hist : σ → List String) (hdb : AppendsHistory u.Database hist)
    (src : List Migration) (hsrc : u.Source.Migrations = .ok src) (hne : src ≠ []) :
    ∃ k, k ≤ (unapplied src (hist w.db)).length ∧
      (u.Do now w).result = some { Executed := (unapplied src (hist w.db)).take k } ∧
      dbEvents (u.Do now w).trace
        = okEvents ((unapplied src (hist w.db)).take k)
          ++ (((unapplied src (hist w.db)).drop k).take 1).map (DbEvent.migrate · false) ∧
      ((u.Do now w).err ≠ none ↔ k < (unapplied src (hist w.db)).length) ∧
      hist (u.Do now w).world.db
        = hist w.db ++ ((unapplied src (hist w.db)).take k).map (·.ID) := by
  obtain ⟨h, hread, hids⟩ := hdb.reads.read_ok w.db
  obtain ⟨hres, herr, hdbeq, htrace⟩ := Do_of_read_ok u now w src h hsrc hne hread
  rw [hids] at hres herr hdbeq htrace
  have hun : ∀ m ∈ unapplied src (hist w.db),
      ((buildExecutedByID h).lookup m.ID).isSome = false := by
    rw [← hids]; exact unapplied_not_in_map h src
  obtain ⟨k, tail, hk, hex, htr, hend⟩ :=
    loop_spec u now (buildExecutedByID h) _ hun (loopStart u w) rfl
  obtain ⟨ex, hex2, hhist⟩ :=
    loop_history u now hist hdb (buildExecutedByID h) _ hun (loopStart u w)
  have hexeq : ex = (unapplied src (hist w.db)).take k := by
    have := hex2.symm.trans hex
    simpa [loopStart] using this
  have hstart : dbEvents (loopStart u w).world.trace = [] := rfl
  have hh0 : hist (loopStart u w).world.db = hist w.db := hdb.reads.read_frame w.db
  refine ⟨k, hk, ?_, ?_, ?_, ?_⟩
  · rw [hres, hex]; simp [loopStart]
  · rw [htrace, htr, hstart]
    rcases hend with ⟨h1, h2, _⟩ | ⟨m, e, _, h1, _, h2, _⟩ | ⟨m, d, s, _, hf, _, _⟩
    · simp [h1, h2]
    · simp [h2, take_one_drop_of_getElem? _ _ _ h1]
    · exact absurd (hdb.record_ok _ _ _) hf
  · rw [Ne, herr]
    rcases hend with ⟨h1, _, h3⟩ | ⟨m, e, _, h1, _, _, h3⟩ | ⟨m, d, s, _, hf, _, _⟩
    · simp [h1, h3]
    · have hlt : k < (unapplied src (hist w.db)).length := by
        by_contra hge
        rw [List.getElem?_eq_none (by omega)] at h1
        exact absurd h1 (by simp)
      simp [h3, hlt]
    · exact absurd (hdb.record_ok _ _ _) hf
  · rw [hdbeq, hhist, hh0, hexeq]

/-! ## C1: what a run executes -/

/-- C1: for a non-empty source and a database whose `RecordMigration` always
succeeds and appends the ID to the history, `Do` returns a non-nil result whose
`Executed` is the first `k` unapplied migrations of the source (those whose ID
is not in the history before the run, in source order); these `k` were migrated
and recorded successfully, and when `k` is not all of them the next one was
passed to `Migrate`, which failed, and nothing was called after it; the error is
non-nil exactly when `Executed` is cut short, which is exactly when some
`Migrate` failed; and the history after the run is the history before it
followed by the IDs of `Executed`, in order. -/
theorem Do_executes_unapplied_until_first_failure {σ L : Type} (u : Upgrader σ L)
    (now : Clock) (w : World σ L) (hist : σ → List String)
    (hdb : AppendsHistory u.Database hist)
    (src : List Migration) (hsrc : u.Source.Migrations = .ok src) (hne : src ≠ []) :
    ∃ k, k ≤ (unapplied src (hist w.db)).length ∧
      (u.Do now w).result = some { Executed := (unapplied src (hist w.db)).take k } ∧
      dbEvents (u.Do now w).trace
        = okEvents ((unapplied src (hist w.db)).take k)
          ++ (((unapplied src (hist w.db)).drop k).take 1).map (DbEvent.migrate · false) ∧
      ((u.Do now w).err ≠ none ↔ k < (unapplied src (hist w.db)).length) ∧
      ((u.Do now w).err ≠ none ↔ ∃ m, DbEvent.migrate m false ∈ dbEvents (u.Do now w).trace) ∧
      hist (u.Do now w).world.db
        = hist w.db ++ ((unapplied src (hist w.db)).take k).map (·.ID) := by
  obtain ⟨k, hk, hres, htr, herr, hh⟩ := Do_appending_spec u now w hist hdb src hsrc hne
  refine ⟨k, hk, hres, htr, herr, ?_, hh⟩
  rw [herr, htr]
  constructor
  · intro hlt
    have hsome : (unapplied src (hist w.db))[k]? = some ((unapplied src (hist w.db))[k]) :=
      List.getElem?_eq_getElem hlt
    exact ⟨(unapplied src (hist w.db))[k],
      by rw [take_one_drop_of_getElem? _ _ _ hsome]; simp⟩
  · rintro ⟨m, hm⟩
    rcases List.mem_append.1 hm with h1 | h1
    · exact absurd h1 (migrate_false_not_mem_okEvents _ _)
    · by_contra hge
      rw [List.drop_of_length_le (by omega)] at h1
      simp at h1

/-- C1 at the mock database with history `[a]`, source `[a, b, c, d]` and the
second `Migrate` call failing. -/
theorem Do_executes_unapplied_until_first_failure_witness :
    AppendsHistory DatabaseMock.database DatabaseMock.history ∧
    ∃ k, k ≤ (unapplied [migID "a", migID "b", migID "c", migID "d"] ["a"]).length ∧
      ((mockUpgrader [migID "a", migID "b", migID "c", migID "d"]).Do (fun n => n)
          (mockWorld ⟨[mockRecord "a"], true, 1⟩)).result
        = some { Executed := (unapplied [migID "a", migID "b", migID "c", migID "d"] ["a"]).take k } ∧
      dbEvents ((mockUpgrader [migID "a", migID "b", migID "c", migID "d"]).Do (fun n => n)
          (mockWorld ⟨[mockRecord "a"], true, 1⟩)).trace
        = okEvents ((unapplied [migID "a", migID "b", migID "c", migID "d"] ["a"]).take k)
          ++ (((unapplied [migID "a", migID "b", migID "c", migID "d"] ["a"]).drop k).take 1).map
              (DbEvent.migrate · false) ∧
      (((mockUpgrader [migID "a", migID "b", migID "c", migID "d"]).Do (fun n => n)
          (mockWorld ⟨[mockRecord "a"], true, 1⟩)).err ≠ none
        ↔ k < (unapplied [migID "a", migID "b", migID "c", migID "d"] ["a"]).length) ∧
      (((mockUpgrader [migID "a", migID "b", migID "c", migID "d"]).Do (fun n => n)
          (mockWorld ⟨[mockRecord "a"], true, 1⟩)).err ≠ none
        ↔ ∃ m, DbEvent.migrate m false ∈
            dbEvents ((mockUpgrader [migID "a", migID "b", migID "c", migID "d"]).Do (fun n => n)
              (mockWorld ⟨[mockRecord "a"], true, 1⟩)).trace) ∧
      DatabaseMock.history ((mockUpgrader [migID "a", migID "b", migID "c", migID "d"]).Do
          (fun n => n) (mockWorld ⟨[mockRecord "a"], true, 1⟩)).world.db
        = ["a"] ++ ((unapplied [migID "a", migID "b", migID "c", migID "d"] ["a"]).take k).map (·.ID) :=
  ⟨DatabaseMock.appendsHistory,
   Do_executes_unapplied_until_first_failure
     (mockUpgrader [migID "a", migID "b", migID "c", migID "d"]) (fun n => n)
     (mockWorld ⟨[mockRecord "a"], true, 1⟩) DatabaseMock.history DatabaseMock.appendsHistory
     [migID "a", migID "b", migID "c", migID "d"] rfl (by decide)⟩

/-! ## C2: a failing `RecordMigration` -/

/-- C2: with the source `[a]`, an empty history and a database whose `Migrate`
succeeds and whose `RecordMigration` fails, `Do` stops the loop and returns the
accumulated result (without `a`, whose content has been applied to the store)
with a nil error: the error of `RecordMigration` is lost. -/
theorem Do_record_failure_returns_nil_error :
    ((recordFailsUpgrader [migID "a"]).Do (fun n => n)
        { db := [], log := (), tick := 0 }).result = some { Executed := [] } ∧
    ((recordFailsUpgrader [migID "a"]).Do (fun n => n)
        { db := [], log := (), tick := 0 }).err = none ∧
    dbEvents ((recordFailsUpgrader [migID "a"]).Do (fun n => n)
        { db := [], log := (), tick := 0 }).trace
      = [DbEvent.migrate (migID "a") true, DbEvent.record "a" false] ∧
    ((recordFailsUpgrader [migID "a"]).Do (fun n => n)
        { db := [], log := (), tick := 0 }).world.db = ["a"] := by
  refine ⟨rfl, rfl, rfl, rfl⟩

/-! ## C3: which calls a run makes -/

theorem migrated_okEvents (ms : List Migration) : migrated (okEvents ms) = ms := by
  induction ms with
  | nil => rfl
  | cons m ms ih =>
    have : okEvents (m :: ms)
        = DbEvent.migrate m true :: DbEvent.record m.ID true :: okEvents ms := by
      simp [okEvents]
    rw [this]
    simpa [migrated] using ih

theorem migrated_append (a b : List DbEvent) : migrated (a ++ b) = migrated a ++ migrated b := by
  simp [migrated, List.filterMap_append]

theorem not_failed_of_mem_okEvents (ms : List Migration) (ev : DbEvent)
    (h : ev ∈ okEvents ms) : ev.failed = false := by
  simp only [okEvents, List.mem_flatMap] at h
  obtain ⟨m, _, hm⟩ := h
  simp at hm
  rcases hm with rfl | rfl <;> rfl

/-- In a list whose elements before the last have not failed, a failed element
is the last one. -/
theorem failed_is_last (good : List DbEvent) (x : DbEvent)
    (hgood : ∀ ev ∈ good, ev.failed = false)
    (pre post : List DbEvent) (ev : DbEvent)
    (h : good ++ [x] = pre ++ ev :: post) (hev : ev.failed = true) : post = [] := by
  rcases List.append_eq_append_iff.1 h with ⟨a, _, hb⟩ | ⟨c, hc, hd⟩
  · cases a with
    | nil =>
      simp at hb
      exact hb.2
    | cons y ys => simp at hb
  · cases c with
    | nil =>
      simp at hd
      exact hd.2
    | cons z zs =>
      simp at hd
      have hmem : ev ∈ good := by rw [hc, hd.1]; simp
      rw [hgood ev hmem] at hev
      exact absurd hev (by simp)

/-- The run of `Do` once the history `h` has been read, for any database: `k`
unapplied migrations are executed and recorded, then the run ends in one of
three ways. -/
theorem Do_events_spec {σ L : Type} (u : Upgrader σ L) (now : Clock) (w : World σ L)
    (src : List Migration) (h : List Executed)
    (hsrc : u.Source.Migrations = .ok src) (hne : src ≠ [])
    (hread : (u.Database.ExecutedMigrations w.db).1 = .ok h) :
    ∃ k tail, k ≤ (unapplied src (h.map (·.ID))).length ∧
      (u.Do now w).result = some { Executed := (unapplied src (h.map (·.ID))).take k } ∧
      dbEvents (u.Do now w).trace = okEvents ((unapplied src (h.map (·.ID))).take k) ++ tail ∧
      ((k = (unapplied src (h.map (·.ID))).length ∧ tail = [] ∧ (u.Do now w).err = none) ∨
       (∃ m, (unapplied src (h.map (·.ID)))[k]? = some m ∧
          tail = [DbEvent.migrate m false] ∧ (u.Do now w).err ≠ none) ∨
       (∃ m, (unapplied src (h.map (·.ID)))[k]? = some m ∧
          tail = [DbEvent.migrate m true, DbEvent.record m.ID false] ∧
          (u.Do now w).err = none)) := by
  obtain ⟨hres, herr, _, htrace⟩ := Do_of_read_ok u now w src h hsrc hne hread
  obtain ⟨k, tail, hk, hex, htr, hend⟩ :=
    loop_spec u now (buildExecutedByID h) _ (unapplied_not_in_map h src) (loopStart u w) rfl
  have hstart : dbEvents (loopStart u w).world.trace = [] := rfl
  refine ⟨k, tail, hk, ?_, ?_, ?_⟩
  · rw [hres, hex]; simp [loopStart]
  · rw [htrace, htr, hstart]; simp
  · rcases hend with ⟨h1, h2, h3⟩ | ⟨m, e, _, h1, _, h2, h3⟩ | ⟨m, d, s, h1, _, h2, h3⟩
    · exact Or.inl ⟨h1, h2, herr.2 h3⟩
    · refine Or.inr (Or.inl ⟨m, h1, h2, ?_⟩)
      rw [Ne, herr, h3]; simp
    · exact Or.inr (Or.inr ⟨m, h1, h2, herr.2 h3⟩)

theorem take_append_getElem? {α : Type} (l : List α) (k : Nat) (a : α)
    (h : l[k]? = some a) : l.take k ++ [a] = l.take (k + 1) := by
  rw [List.take_succ, h]; rfl

/-- Whenever a run made a failed `RecordMigration` call, `Do` returned a nil
error. -/
theorem Do_nil_error_of_failed_record {σ L : Type} (u : Upgrader σ L) (now : Clock)
    (w : World σ L) (src : List Migration) (h : List Executed)
    (hsrc : u.Source.Migrations = .ok src) (hne : src ≠ [])
    (hread : (u.Database.ExecutedMigrations w.db).1 = .ok h) (id : String)
    (hrec : DbEvent.record id false ∈ dbEvents (u.Do now w).trace) :
    (u.Do now w).err = none := by
  obtain ⟨k, tail, _, _, htr, hend⟩ := Do_events_spec u now w src h hsrc hne hread
  rw [htr] at hrec
  rcases hend with ⟨_, h2, h3⟩ | ⟨m, _, h2, _⟩ | ⟨m, _, _, h3⟩
  · exact h3
  · rw [h2] at hrec
    rcases List.mem_append.1 hrec with h1 | h1
    · have := not_failed_of_mem_okEvents _ _ h1
      simp [DbEvent.failed] at this
    · simp at h1
  · exact h3

/-- C3: for a non-empty source, any history read and any database behaviour,
the calls `Do` makes to `Migrate` and `RecordMigration` are: a successful
`Migrate` and `RecordMigration` for each of the first `k` unapplied migrations,
in source order, and then nothing, or a failed `Migrate` on the next unapplied
migration, or a successful `Migrate` and a failed `RecordMigration` on it.  So
the migrations passed to `Migrate` are a prefix of the unapplied sublist of the
source, a failed call is the last call of the run, and a run without a failed
call migrates the whole unapplied sublist. -/
theorem Do_migrates_prefix_of_unapplied {σ L : Type} (u : Upgrader σ L) (now : Clock)
    (w : World σ L) (src : List Migration) (h : List Executed)
    (hsrc : u.Source.Migrations = .ok src) (hne : src ≠ [])
    (hread : (u.Database.ExecutedMigrations w.db).1 = .ok h) :
    (∃ k tail, k ≤ (unapplied src (h.map (·.ID))).length ∧
      dbEvents (u.Do now w).trace = okEvents ((unapplied src (h.map (·.ID))).take k) ++ tail ∧
      ((k = (unapplied src (h.map (·.ID))).length ∧ tail = []) ∨
       (∃ m, (unapplied src (h.map (·.ID)))[k]? = some m ∧
          (tail = [DbEvent.migrate m false] ∨
           tail = [DbEvent.migrate m true, DbEvent.record m.ID false])))) ∧
    migrated (dbEvents (u.Do now w).trace) <+: unapplied src (h.map (·.ID)) ∧
    (∀ pre ev post, dbEvents (u.Do now w).trace = pre ++ ev :: post →
        ev.failed = true → post = []) ∧
    ((∀ ev ∈ dbEvents (u.Do now w).trace, ev.failed = false) →
        migrated (dbEvents (u.Do now w).trace) = unapplied src (h.map (·.ID))) := by
  obtain ⟨k, tail, hk, _, htr, hend⟩ := Do_events_spec u now w src h hsrc hne hread
  have hgood := not_failed_of_mem_okEvents ((unapplied src (h.map (·.ID))).take k)
  refine ⟨⟨k, tail, hk, htr, ?_⟩, ?_, ?_, ?_⟩
  · rcases hend with ⟨h1, h2, _⟩ | ⟨m, h1, h2, _⟩ | ⟨m, h1, h2, _⟩
    · exact Or.inl ⟨h1, h2⟩
    · exact Or.inr ⟨m, h1, Or.inl h2⟩
    · exact Or.inr ⟨m, h1, Or.inr h2⟩
  · rw [htr, migrated_append, migrated_okEvents]
    rcases hend with ⟨_, h2, _⟩ | ⟨m, h1, h2, _⟩ | ⟨m, h1, h2, _⟩
    · rw [h2]; simpa [migrated] using List.take_prefix _ _
    · rw [h2]
      have : migrated [DbEvent.migrate m false] = [m] := rfl
      rw [this, take_append_getElem? _ _ _ h1]
      exact List.take_prefix _ _
    · rw [h2]
      have : migrated [DbEvent.migrate m true, DbEvent.record m.ID false] = [m] := rfl
      rw [this, take_append_getElem? _ _ _ h1]
      exact List.take_prefix _ _
  · intro pre ev post hsplit hev
    rw [htr] at hsplit
    rcases hend with ⟨_, h2, _⟩ | ⟨m, _, h2, _⟩ | ⟨m, _, h2, _⟩
    · have hmem : ev ∈ okEvents ((unapplied src (h.map (·.ID))).take k) := by
        have : ev ∈ pre ++ ev :: post := by simp
        rw [← hsplit, h2] at this
        simpa using this
      rw [hgood ev hmem] at hev
      exact absurd hev (by simp)
    · rw [h2] at hsplit
      exact failed_is_last _ _ hgood pre post ev hsplit hev
    · rw [h2] at hsplit
      have hsplit2 : (okEvents ((unapplied src (h.map (·.ID))).take k)
          ++ [DbEvent.migrate m true]) ++ [DbEvent.record m.ID false] = pre ++ ev :: post := by
        simpa using hsplit
      refine failed_is_last _ _ ?_ pre post ev hsplit2 hev
      intro x hx
      rcases List.mem_append.1 hx with hx | hx
      · exact hgood x hx
      · simp at hx; rw [hx]; rfl
  · intro hall
    rcases hend with ⟨h1, h2, _⟩ | ⟨m, _, h2, _⟩ | ⟨m, _, h2, _⟩
    · rw [htr, h2, h1]; simp [migrated_okEvents]
    · have := hall (DbEvent.migrate m false) (by rw [htr, h2]; simp)
      exact absurd this (by simp [DbEvent.failed])
    · have := hall (DbEvent.record m.ID false) (by rw [htr, h2]; simp)
      exact absurd this (by simp [DbEvent.failed])

/-- C3 at the source `[a, b]` with an empty history and a database whose
`RecordMigration` fails: the run stops after `a`. -/
theorem Do_migrates_prefix_of_unapplied_witness :
    (∃ k tail, k ≤ (unapplied [migID "a", migID "b"] (([] : List Executed).map (·.ID))).length ∧
      dbEvents ((recordFailsUpgrader [migID "a", migID "b"]).Do (fun n => n)
          { db := [], log := (), tick := 0 }).trace
        = okEvents ((unapplied [migID "a", migID "b"] (([] : List Executed).map (·.ID))).take k)
            ++ tail ∧
      ((k = (unapplied [migID "a", migID "b"] (([] : List Executed).map (·.ID))).length ∧
          tail = []) ∨
       (∃ m, (unapplied [migID "a", migID "b"] (([] : List Executed).map (·.ID)))[k]? = some m ∧
          (tail = [DbEvent.migrate m false] ∨
           tail = [DbEvent.migrate m true, DbEvent.record m.ID false])))) ∧
    migrated (dbEvents ((recordFailsUpgrader [migID "a", migID "b"]).Do (fun n => n)
        { db := [], log := (), tick := 0 }).trace)
      <+: unapplied [migID "a", migID "b"] (([] : List Executed).map (·.ID)) ∧
    (∀ pre ev post, dbEvents ((recordFailsUpgrader [migID "a", migID "b"]).Do (fun n => n)
        { db := [], log := (), tick := 0 }).trace = pre ++ ev :: post →
        ev.failed = true → post = []) ∧
    ((∀ ev ∈ dbEvents ((recordFailsUpgrader [migID "a", migID "b"]).Do (fun n => n)
        { db := [], log := (), tick := 0 }).trace, ev.failed = false) →
        migrated (dbEvents ((recordFailsUpgrader [migID "a", migID "b"]).Do (fun n => n)
          { db := [], log := (), tick := 0 }).trace)
          = unapplied [migID "a", migID "b"] (([] : List Executed).map (·.ID))) :=
  Do_migrates_prefix_of_unapplied (recordFailsUpgrader [migID "a", migID "b"]) (fun n => n)
    { db := [], log := (), tick := 0 } [migID "a", migID "b"] [] rfl (by decide) rfl

/-! ## C4: idempotence -/

/-- With a database on which nothing fails and records persist, the loop leaves
every ID it started with, and the ID of every migration it went through, in the
history. -/
theorem loop_records_all {σ L : Type} (u : Upgrader σ L) (now : Clock)
    (hist : σ → List String) (hdb : RecordsForGood u.Database hist)
    (ebi : List (String × Executed)) (un : List Migration)
    (hun : ∀ m ∈ un, (ebi.lookup m.ID).isSome = false) (st : LoopState σ L) :
    (∀ x ∈ hist st.world.db, x ∈ hist (u.loop now ebi un st).world.db) ∧
    (∀ m ∈ un, m.ID ∈ hist (u.loop now ebi un st).world.db) := by
  induction un generalizing st with
  | nil => exact ⟨fun x hx => by simpa [Upgrader.loop] using hx, by simp⟩
  | cons m ms ih =>
    have hms : ∀ x ∈ ms, (ebi.lookup x.ID).isSome = false :=
      fun x hx => hun x (List.mem_cons_of_mem _ hx)
    rw [loop_cons_attempt u now ebi m ms st (hun m (List.mem_cons_self _ _))]
    rcases attempt_cases u now m st with
      ⟨e, hmf, _⟩ | ⟨d, _, hrf, _⟩ | ⟨d, _, _, hc, _, _, _, hdb1⟩
    · rw [hdb.migrate_ok] at hmf
      exact absurd hmf (by simp)
    · exact absurd (hdb.record_ok _ _ _) hrf
    · rw [hc]
      simp only [if_true]
      obtain ⟨ih1, ih2⟩ := ih hms (u.attempt now m st).1
      have hkeep : ∀ x ∈ hist st.world.db, x ∈ hist (u.attempt now m st).1.world.db := by
        intro x hx
        rw [hdb1]
        exact hdb.record_keeps _ _ _ _ (hdb.migrate_keeps _ _ _ hx)
      have hadd : m.ID ∈ hist (u.attempt now m st).1.world.db := by
        rw [hdb1]
        exact hdb.record_adds _ _ _
      refine ⟨fun x hx => ih1 x (hkeep x hx), ?_⟩
      intro x hx
      rcases List.mem_cons.1 hx with rfl | hx
      · exact ih1 _ hadd
      · exact ih2 x hx

theorem unapplied_eq_nil (src : List Migration) (history : List String)
    (h : ∀ m ∈ src, m.ID ∈ history) : unapplied src history = [] := by
  unfold unapplied
  rw [List.filter_eq_nil_iff]
  intro m hm
  simpa using h m hm

theorem mem_unapplied_of_not_mem (src : List Migration) (history : List String)
    (m : Migration) (hm : m ∈ src) (hn : m.ID ∉ history) : m ∈ unapplied src history := by
  unfold unapplied
  rw [List.mem_filter]
  exact ⟨hm, by simpa using hn⟩

/-- After a run against a database on which nothing fails and records persist,
the ID of every source migration is in the history, and the run returned no
error. -/
theorem Do_records_all {σ L : Type} (u : Upgrader σ L) (now : Clock) (w : World σ L)
    (hist : σ → List String) (hdb : RecordsForGood u.Database hist)
    (src : List Migration) (hsrc : u.Source.Migrations = .ok src) (hne : src ≠ []) :
    (u.Do now w).err = none ∧ ∀ m ∈ src, m.ID ∈ hist (u.Do now w).world.db := by
  obtain ⟨h, hread, hids⟩ := hdb.reads.read_ok w.db
  obtain ⟨_, herr, hdbeq, _⟩ := Do_of_read_ok u now w src h hsrc hne hread
  obtain ⟨h1, h2⟩ := loop_records_all u now hist hdb (buildExecutedByID h) _
    (unapplied_not_in_map h src) (loopStart u w)
  constructor
  · obtain ⟨k, tail, _, _, _, hend⟩ := loop_spec u now (buildExecutedByID h) _
      (unapplied_not_in_map h src) (loopStart u w) rfl
    rw [herr]
    rcases hend with ⟨_, _, h3⟩ | ⟨m, e, s, _, hf, _, _⟩ | ⟨m, _, _, _, _, _, h3⟩
    · exact h3
    · rw [hdb.migrate_ok] at hf
      exact absurd hf (by simp)
    · exact h3
  · intro m hm
    rw [hdbeq]
    by_cases hin : m.ID ∈ h.map (·.ID)
    · apply h1
      have : hist (loopStart u w).world.db = hist w.db := hdb.reads.read_frame w.db
      rw [this, ← hids]
      exact hin
    · exact h2 m (mem_unapplied_of_not_mem _ _ _ hm hin)

theorem memoryDatabase_readsHistory : ReadsHistory memoryDatabase id :=
  ⟨fun s => ⟨s.map mockRecord, rfl, by simp [mockRecord, Function.comp_def]⟩, fun _ => rfl⟩

theorem memoryDatabase_recordsForGood : RecordsForGood memoryDatabase id where
  reads := memoryDatabase_readsHistory
  migrate_ok := fun _ _ => rfl
  migrate_keeps := fun _ _ _ hx => hx
  record_ok := fun _ _ _ => rfl
  record_adds := fun i _ s => by simp [memoryDatabase]
  record_keeps := fun i _ s x hx => by
    have : x ∈ s := hx
    simp [memoryDatabase, this]

/-- C4: for a non-empty source and a database whose `Migrate` and
`RecordMigration` succeed and whose `RecordMigration` makes the ID appear (and
stay) in what `ExecutedMigrations` returns, a second run of `Do` right after a
first one, with the same source, returns an empty `Executed` list and a nil
error, calls only `Source.Migrations` and `ExecutedMigrations` (no `Migrate`,
no `RecordMigration`), and leaves the history unchanged. -/
theorem Do_twice_second_run_does_nothing {σ L : Type} (u : Upgrader σ L)
    (now now2 : Clock) (w : World σ L) (hist : σ → List String)
    (hdb : RecordsForGood u.Database hist)
    (src : List Migration) (hsrc : u.Source.Migrations = .ok src) (hne : src ≠ []) :
    (u.Do now2 (u.Do now w).world).result = some { Executed := [] } ∧
    (u.Do now2 (u.Do now w).world).err = none ∧
    (u.Do now2 (u.Do now w).world).trace
      = [Call.srcMigrations, Call.executedMigrations none] ∧
    dbEvents (u.Do now2 (u.Do now w).world).trace = [] ∧
    hist (u.Do now2 (u.Do now w).world).world.db = hist (u.Do now w).world.db := by
  obtain ⟨_, hall⟩ := Do_records_all u now w hist hdb src hsrc hne
  obtain ⟨h2, hread, hids⟩ := hdb.reads.read_ok (u.Do now w).world.db
  obtain ⟨hres, herr, hdbeq, htrace⟩ :=
    Do_of_read_ok u now2 (u.Do now w).world src h2 hsrc hne hread
  have hnil : unapplied src (h2.map (·.ID)) = [] :=
    unapplied_eq_nil src _ (by rw [hids]; exact hall)
  rw [hnil] at hres herr hdbeq htrace
  simp only [Upgrader.loop] at hres herr hdbeq htrace
  refine ⟨hres, herr.2 rfl, htrace, by rw [htrace]; rfl, ?_⟩
  rw [hdbeq]
  exact hdb.reads.read_frame _

/-- C4 at the in-memory database with the source `[a, b]` and an empty
history. -/
theorem Do_twice_second_run_does_nothing_witness :
    RecordsForGood memoryDatabase id ∧
    ((memoryUpgrader [migID "a", migID "b"]).Do (fun n => n)
      ((memoryUpgrader [migID "a", migID "b"]).Do (fun n => n)
        { db := [], log := (), tick := 0 }).world).result = some { Executed := [] } ∧
    ((memoryUpgrader [migID "a", migID "b"]).Do (fun n => n)
      ((memoryUpgrader [migID "a", migID "b"]).Do (fun n => n)
        { db := [], log := (), tick := 0 }).world).err = none ∧
    ((memoryUpgrader [migID "a", migID "b"]).Do (fun n => n)
      ((memoryUpgrader [migID "a", migID "b"]).Do (fun n => n)
        { db := [], log := (), tick := 0 }).world).trace
      = [Call.srcMigrations, Call.executedMigrations none] ∧
    dbEvents ((memoryUpgrader [migID "a", migID "b"]).Do (fun n => n)
      ((memoryUpgrader [migID "a", migID "b"]).Do (fun n => n)
        { db := [], log := (), tick := 0 }).world).trace = [] ∧
    id ((memoryUpgrader [migID "a", migID "b"]).Do (fun n => n)
      ((memoryUpgrader [migID "a", migID "b"]).Do (fun n => n)
        { db := [], log := (), tick := 0 }).world).world.db
      = id ((memoryUpgrader [migID "a", migID "b"]).Do (fun n => n)
        { db := [], log := (), tick := 0 }).world.db :=
  ⟨memoryDatabase_recordsForGood,
   Do_twice_second_run_does_nothing (memoryUpgrader [migID "a", migID "b"])
     (fun n => n) (fun n => n) { db := [], log := (), tick := 0 } id
     memoryDatabase_recordsForGood [migID "a", migID "b"] rfl (by decide)⟩

/-! ## C5: resuming after a failed `Migrate` -/

theorem unapplied_append (src : List Migration) (h x : List String) :
    unapplied src (h ++ x) = (unapplied src h).filter (fun m => !x.contains m.ID) := by
  unfold unapplied
  rw [List.filter_filter]
  apply List.filter_congr
  intro m _
  by_cases h1 : m.ID ∈ h <;> by_cases h2 : m.ID ∈ x <;> simp [h1, h2]

theorem filter_not_in_take_ids (l : List Migration) (hl : (l.map (·.ID)).Nodup) (k : Nat) :
    l.filter (fun m => !((l.take k).map (·.ID)).contains m.ID) = l.drop k := by
  induction l generalizing k with
  | nil => simp
  | cons a as ih =>
    cases k with
    | zero => simp
    | succ n =>
      rw [List.map_cons, List.nodup_cons] at hl
      have ha : (!((List.take (n + 1) (a :: as)).map (·.ID)).contains a.ID) = false := by simp
      rw [List.filter_cons, ha]
      simp only [Bool.false_eq_true, if_false, List.drop_succ_cons]
      rw [← ih hl.2 n]
      apply List.filter_congr
      intro m hm
      have hne : m.ID ≠ a.ID := by
        intro heq
        exact hl.1 (heq ▸ List.mem_map_of_mem (·.ID) hm)
      simp [hne]

theorem unapplied_ids_nodup (src : List Migration) (h : List String)
    (hs : (src.map (·.ID)).Nodup) : ((unapplied src h).map (·.ID)).Nodup :=
  List.Nodup.sublist (List.Sublist.map _ (List.filter_sublist _)) hs

/-- With pairwise distinct IDs, once the first `k` unapplied migrations are
recorded, the unapplied migrations are the remaining ones. -/
theorem unapplied_after_take (src : List Migration) (h : List String)
    (hs : (src.map (·.ID)).Nodup) (k : Nat) :
    unapplied src (h ++ ((unapplied src h).take k).map (·.ID)) = (unapplied src h).drop k := by
  rw [unapplied_append]
  exact filter_not_in_take_ids _ (unapplied_ids_nodup src h hs) k

theorem Do_empty_source_no_events {σ L : Type} (u : Upgrader σ L) (now : Clock)
    (w : World σ L) (hsrc : u.Source.Migrations = .ok []) :
    dbEvents (u.Do now w).trace = [] := by
  simp [Upgrader.Do, hsrc, Run.finish, dbEvents, Call.dbEvent]

/-- C5: for a source with pairwise distinct IDs and a database whose
`RecordMigration` succeeds and appends to the history, if in a first run of `Do`
`Migrate` fails on a migration `f` and in a second run with the same source,
started with the history the first run left, no `Migrate` fails, then the first run ends with the failed `Migrate` of `f` and
returns an error, the second run returns a nil error and an `Executed` list
that starts with `f` and goes on with every unapplied migration after it, in
source order: the first run's `Executed` followed by the second run's is the
unapplied sublist of the source as it was before the first run. -/
theorem Do_resumes_after_failed_migrate {σ L : Type} (u : Upgrader σ L)
    (now now2 : Clock) (w w2 : World σ L) (hist : σ → List String)
    (hdb : AppendsHistory u.Database hist)
    (src : List Migration) (hsrc : u.Source.Migrations = .ok src)
    (hnodup : (src.map (·.ID)).Nodup) (f : Migration)
    (hfail : DbEvent.migrate f false ∈ dbEvents (u.Do now w).trace)
    (hw2 : hist w2.db = hist (u.Do now w).world.db)
    (hok2 : ∀ m, DbEvent.migrate m false ∉ dbEvents (u.Do now2 w2).trace) :
    ∃ ex1 rest,
      (u.Do now w).result = some { Executed := ex1 } ∧
      (u.Do now w).err ≠ none ∧
      dbEvents (u.Do now w).trace = okEvents ex1 ++ [DbEvent.migrate f false] ∧
      (u.Do now2 w2).result = some { Executed := f :: rest } ∧
      (u.Do now2 w2).err = none ∧
      ex1 ++ f :: rest = unapplied src (hist w.db) := by
  have hne : src ≠ [] := by
    intro hnil
    rw [hnil] at hsrc
    rw [Do_empty_source_no_events u now w hsrc] at hfail
    simp at hfail
  obtain ⟨k1, hk1, hres1, htr1, herr1, hh1⟩ := Do_appending_spec u now w hist hdb src hsrc hne
  obtain ⟨k2, hk2, hres2, htr2, herr2, _⟩ :=
    Do_appending_spec u now2 w2 hist hdb src hsrc hne
  rw [hw2, hh1, unapplied_after_take src _ hnodup k1] at hk2 hres2 htr2 herr2
  -- the first run stopped at position `k1`, on `f`
  have hlt1 : k1 < (unapplied src (hist w.db)).length := by
    by_contra hge
    rw [htr1, List.drop_of_length_le (by omega)] at hfail
    simp at hfail
    exact migrate_false_not_mem_okEvents _ _ hfail
  have hget : (unapplied src (hist w.db))[k1]? = some ((unapplied src (hist w.db))[k1]) :=
    List.getElem?_eq_getElem hlt1
  have hf : (unapplied src (hist w.db))[k1] = f := by
    rw [htr1, take_one_drop_of_getElem? _ _ _ hget] at hfail
    rcases List.mem_append.1 hfail with h1 | h1
    · exact absurd h1 (migrate_false_not_mem_okEvents _ _)
    · simp at h1
      exact h1.symm
  have hdrop : (unapplied src (hist w.db)).drop k1
      = f :: (unapplied src (hist w.db)).drop (k1 + 1) := by
    rw [← hf]
    exact List.drop_eq_getElem_cons hlt1
  -- the second run went through all that was left
  have hk2eq : k2 = ((unapplied src (hist w.db)).drop k1).length := by
    by_contra hne2
    have hlt2 : k2 < ((unapplied src (hist w.db)).drop k1).length := by omega
    have hget2 := List.getElem?_eq_getElem hlt2
    apply hok2 (((unapplied src (hist w.db)).drop k1)[k2])
    rw [htr2, take_one_drop_of_getElem? _ _ _ hget2]
    simp
  refine ⟨(unapplied src (hist w.db)).take k1, (unapplied src (hist w.db)).drop (k1 + 1),
    hres1, herr1.2 hlt1, ?_, ?_, ?_, ?_⟩
  · rw [htr1, take_one_drop_of_getElem? _ _ _ hget, hf]
    rfl
  · rw [hres2, hk2eq, List.take_length, hdrop]
  · by_contra hcon
    have := herr2.1 hcon
    omega
  · rw [← hdrop, List.take_append_drop]

/-- C5 at the mock database with history `[a]`, source `[a, b, c, d]`, the
second `Migrate` call of the first run failing and `migrateOverride` switched
off for the second run, as the tests do. -/
theorem Do_resumes_after_failed_migrate_witness :
    AppendsHistory DatabaseMock.database DatabaseMock.history ∧
    ∃ ex1 rest,
      ((mockUpgrader [migID "a", migID "b", migID "c", migID "d"]).Do (fun n => n)
          (mockWorld ⟨[mockRecord "a"], true, 1⟩)).result = some { Executed := ex1 } ∧
      ((mockUpgrader [migID "a", migID "b", migID "c", migID "d"]).Do (fun n => n)
          (mockWorld ⟨[mockRecord "a"], true, 1⟩)).err ≠ none ∧
      dbEvents ((mockUpgrader [migID "a", migID "b", migID "c", migID "d"]).Do (fun n => n)
          (mockWorld ⟨[mockRecord "a"], true, 1⟩)).trace
        = okEvents ex1 ++ [DbEvent.migrate (migID "c") false] ∧
      ((mockUpgrader [migID "a", migID "b", migID "c", migID "d"]).Do (fun n => n)
          (mockWorld ⟨[mockRecord "a", mockRecord "b"], false, 0⟩)).result
        = some { Executed := migID "c" :: rest } ∧
      ((mockUpgrader [migID "a", migID "b", migID "c", migID "d"]).Do (fun n => n)
          (mockWorld ⟨[mockRecord "a", mockRecord "b"], false, 0⟩)).err = none ∧
      ex1 ++ migID "c" :: rest
        = unapplied [migID "a", migID "b", migID "c", migID "d"]
            (DatabaseMock.history (mockWorld ⟨[mockRecord "a"], true, 1⟩).db) :=
  ⟨DatabaseMock.appendsHistory,
   Do_resumes_after_failed_migrate (mockUpgrader [migID "a", migID "b", migID "c", migID "d"])
     (fun n => n) (fun n => n) (mockWorld ⟨[mockRecord "a"], true, 1⟩)
     (mockWorld ⟨[mockRecord "a", mockRecord "b"], false, 0⟩) DatabaseMock.history
     DatabaseMock.appendsHistory [migID "a", migID "b", migID "c", migID "d"] rfl
     (by decide) (migID "c") (by decide) (by decide)
     (fun m hm => by
        have h : dbEvents ((mockUpgrader [migID "a", migID "b", migID "c", migID "d"]).Do
            (fun n => n) (mockWorld ⟨[mockRecord "a", mockRecord "b"], false, 0⟩)).trace
            = [DbEvent.migrate (migID "c") true, DbEvent.record "c" true,
               DbEvent.migrate (migID "d") true, DbEvent.record "d" true] := by decide
        rw [h] at hm
        simp at hm)⟩

/-! ## C6: failures before the loop -/

/-- C6: if `Source.Migrations` fails, or returns an empty list, `Do` returns a
nil result and a non-nil error (`no migrations to run` for the empty list) and
its only call is the one to `Source.Migrations`: no `Database` operation is
called and the store is untouched.  If `ExecutedMigrations` fails, `Do` returns
a nil result and a non-nil error and its only calls are `Source.Migrations` and
`ExecutedMigrations`: neither `Migrate` nor `RecordMigration` is called. -/
theorem Do_fails_before_loop {σ L : Type} (u : Upgrader σ L) (now : Clock) (w : World σ L) :
    (∀ e, u.Source.Migrations = .error e →
      (u.Do now w).result = none ∧ (u.Do now w).err ≠ none ∧
      (u.Do now w).trace = [Call.srcMigrations] ∧ (u.Do now w).world.db = w.db) ∧
    (u.Source.Migrations = .ok [] →
      (u.Do now w).result = none ∧ (u.Do now w).err = some "no migrations to run" ∧
      (u.Do now w).trace = [Call.srcMigrations] ∧ (u.Do now w).world.db = w.db) ∧
    (∀ src e, u.Source.Migrations = .ok src → src ≠ [] →
      (u.Database.ExecutedMigrations w.db).1 = .error e →
      (u.Do now w).result = none ∧ (u.Do now w).err ≠ none ∧
      (u.Do now w).trace = [Call.srcMigrations, Call.executedMigrations (some e)] ∧
      dbEvents (u.Do now w).trace = [] ∧
      (u.Do now w).world.db = (u.Database.ExecutedMigrations w.db).2) := by
  refine ⟨?_, ?_, ?_⟩
  · intro e he
    simp [Upgrader.Do, he, Run.finish]
  · intro he
    simp [Upgrader.Do, he, Run.finish]
  · intro src e hsrc hne hread
    have hlen : ¬ src.length = 0 := by simpa using hne
    simp [Upgrader.Do, hsrc, hlen, hread, Run.finish, dbEvents, Call.dbEvent]

/-- C6 at a failing source, at an empty source and at a database whose history
cannot be read. -/
theorem Do_fails_before_loop_witness :
    ((noSourceUpgrader.Do (fun n => n) { db := ["x"], log := (), tick := 0 }).result = none ∧
      (noSourceUpgrader.Do (fun n => n) { db := ["x"], log := (), tick := 0 }).err ≠ none ∧
      (noSourceUpgrader.Do (fun n => n) { db := ["x"], log := (), tick := 0 }).trace
        = [Call.srcMigrations] ∧
      (noSourceUpgrader.Do (fun n => n) { db := ["x"], log := (), tick := 0 }).world.db
        = ["x"]) ∧
    (((memoryUpgrader []).Do (fun n => n) { db := ["x"], log := (), tick := 0 }).result = none ∧
      ((memoryUpgrader []).Do (fun n => n) { db := ["x"], log := (), tick := 0 }).err
        = some "no migrations to run" ∧
      ((memoryUpgrader []).Do (fun n => n) { db := ["x"], log := (), tick := 0 }).trace
        = [Call.srcMigrations] ∧
      ((memoryUpgrader []).Do (fun n => n) { db := ["x"], log := (), tick := 0 }).world.db
        = ["x"]) ∧
    (((unreadableUpgrader [migID "a"]).Do (fun n => n)
          { db := ["x"], log := (), tick := 0 }).result = none ∧
      ((unreadableUpgrader [migID "a"]).Do (fun n => n)
          { db := ["x"], log := (), tick := 0 }).err ≠ none ∧
      ((unreadableUpgrader [migID "a"]).Do (fun n => n)
          { db := ["x"], log := (), tick := 0 }).trace
        = [Call.srcMigrations, Call.executedMigrations (some "connection refused")] ∧
      dbEvents ((unreadableUpgrader [migID "a"]).Do (fun n => n)
          { db := ["x"], log := (), tick := 0 }).trace = [] ∧
      ((unreadableUpgrader [migID "a"]).Do (fun n => n)
          { db := ["x"], log := (), tick := 0 }).world.db
        = ((unreadableUpgrader [migID "a"]).Database.ExecutedMigrations ["x"]).2) :=
  ⟨(Do_fails_before_loop noSourceUpgrader (fun n => n)
      { db := ["x"], log := (), tick := 0 }).1 "no such directory" rfl,
   (Do_fails_before_loop (memoryUpgrader []) (fun n => n)
      { db := ["x"], log := (), tick := 0 }).2.1 rfl,
   (Do_fails_before_loop (unreadableUpgrader [migID "a"]) (fun n => n)
      { db := ["x"], log := (), tick := 0 }).2.2 [migID "a"] "connection refused" rfl
      (by decide) rfl⟩

/-! ## C7: at most once -/

/-- C7, as stated, fails on a source that lists an ID twice: with the source
`[a, a]`, an empty history and a database on which nothing fails, one run of
`Do` calls `Migrate` twice and `RecordMigration` twice for `a`, and `a` is in
the history twice afterwards. -/
theorem Do_duplicate_source_id_applied_twice :
    dbEvents ((memoryUpgrader [migID "a", migID "a"]).Do (fun n => n)
        { db := [], log := (), tick := 0 }).trace
      = [DbEvent.migrate (migID "a") true, DbEvent.record "a" true,
         DbEvent.migrate (migID "a") true, DbEvent.record "a" true] ∧
    ¬ ((migrated (dbEvents ((memoryUpgrader [migID "a", migID "a"]).Do (fun n => n)
        { db := [], log := (), tick := 0 }).trace)).map (·.ID)).Nodup ∧
    ¬ (recorded (dbEvents ((memoryUpgrader [migID "a", migID "a"]).Do (fun n => n)
        { db := [], log := (), tick := 0 }).trace)).Nodup ∧
    ((memoryUpgrader [migID "a", migID "a"]).Do (fun n => n)
        { db := [], log := (), tick := 0 }).world.db = ["a", "a"] := by
  refine ⟨by decide, by decide, by decide, by decide⟩

theorem migrated_map_migrate (l : List Migration) (ok : Bool) :
    migrated (l.map (DbEvent.migrate · ok)) = l := by
  induction l with
  | nil => rfl
  | cons a as ih => simpa [migrated] using ih

theorem recorded_map_migrate (l : List Migration) (ok : Bool) :
    recorded (l.map (DbEvent.migrate · ok)) = [] := by
  induction l with
  | nil => rfl
  | cons a as ih => simp [recorded]

theorem recorded_okEvents (ms : List Migration) : recorded (okEvents ms) = ms.map (·.ID) := by
  induction ms with
  | nil => rfl
  | cons m ms ih =>
    have : okEvents (m :: ms)
        = DbEvent.migrate m true :: DbEvent.record m.ID true :: okEvents ms := by
      simp [okEvents]
    rw [this]
    simpa [recorded] using ih

theorem recorded_append (a b : List DbEvent) : recorded (a ++ b) = recorded a ++ recorded b := by
  simp [recorded, List.filterMap_append]

theorem not_mem_history_of_mem_unapplied (src : List Migration) (history : List String)
    (m : Migration) (hm : m ∈ unapplied src history) : m.ID ∉ history := by
  simp only [unapplied, List.mem_filter] at hm
  simpa using hm.2

/-- With a database that keeps a history, the history after the loop holds
the IDs it held before and, once more each, the IDs of the migrations added to
`executedNow`. -/
theorem loop_history_perm {σ L : Type} (u : Upgrader σ L) (now : Clock)
    (hist : σ → List String) (hdb : KeepsHistory u.Database hist)
    (ebi : List (String × Executed)) (un : List Migration)
    (hun : ∀ m ∈ un, (ebi.lookup m.ID).isSome = false) (st : LoopState σ L) :
    ∃ ex, (u.loop now ebi un st).executedNow = st.executedNow ++ ex ∧
      (hist (u.loop now ebi un st).world.db).Perm (ex.map (·.ID) ++ hist st.world.db) := by
  induction un generalizing st with
  | nil => exact ⟨[], by simp [Upgrader.loop], by simp [Upgrader.loop]⟩
  | cons m ms ih =>
    have hms : ∀ x ∈ ms, (ebi.lookup x.ID).isSome = false :=
      fun x hx => hun x (List.mem_cons_of_mem _ hx)
    rw [loop_cons_attempt u now ebi m ms st (hun m (List.mem_cons_self _ _))]
    rcases attempt_cases u now m st with
      ⟨e, _, hc, _, hex, _, hdb1⟩ | ⟨d, _, hrf, hc, _, hex, _, hdb1⟩ |
      ⟨d, _, hrs, hc, _, hex, _, hdb1⟩
    · rw [hc]
      refine ⟨[], by simp [hex], ?_⟩
      simp only [Bool.false_eq_true, if_false, List.map_nil, List.nil_append]
      rw [hdb1]
      exact hdb.migrate_frame _ _
    · rw [hc]
      refine ⟨[], by simp [hex], ?_⟩
      simp only [Bool.false_eq_true, if_false, List.map_nil, List.nil_append]
      rw [hdb1]
      exact (hdb.record_failed _ _ _ hrf).trans (hdb.migrate_frame _ _)
    · rw [hc]
      simp only [if_true]
      obtain ⟨ex, h1, h2⟩ := ih hms (u.attempt now m st).1
      refine ⟨m :: ex, by simp [h1, hex], ?_⟩
      have hstep : (hist (u.attempt now m st).1.world.db).Perm (m.ID :: hist st.world.db) := by
        rw [hdb1]
        exact (hdb.record_ok _ _ _ hrs).trans (List.Perm.cons _ (hdb.migrate_frame _ _))
      refine h2.trans ?_
      rw [List.map_cons, List.cons_append]
      exact (List.Perm.append_left _ hstep).trans List.perm_middle

theorem Do_read_error {σ L : Type} (u : Upgrader σ L) (now : Clock) (w : World σ L)
    (src : List Migration) (e : String) (hsrc : u.Source.Migrations = .ok src)
    (hne : src ≠ []) (hread : (u.Database.ExecutedMigrations w.db).1 = .error e) :
    dbEvents (u.Do now w).trace = [] ∧
    (u.Do now w).world.db = (u.Database.ExecutedMigrations w.db).2 := by
  have hlen : ¬ src.length = 0 := by simpa using hne
  simp [Upgrader.Do, hsrc, hlen, hread, Run.finish, dbEvents, Call.dbEvent]

/-- C7, amended: for a source with pairwise distinct IDs and every database
(whether or not its `Migrate` and `RecordMigration` succeed), a run of `Do`
calls `Migrate` at most once and `RecordMigration` at most once for each
migration ID and records no ID that was in the history it read; so, for a
database that keeps a history in any listing order, a history without repeated
IDs stays without repeated IDs. -/
theorem Do_at_most_once_of_distinct_ids {σ L : Type} (u : Upgrader σ L) (now : Clock)
    (w : World σ L) (src : List Migration) (hsrc : u.Source.Migrations = .ok src)
    (hnodup : (src.map (·.ID)).Nodup) :
    ((migrated (dbEvents (u.Do now w).trace)).map (·.ID)).Nodup ∧
    (recorded (dbEvents (u.Do now w).trace)).Nodup ∧
    (∀ h, (u.Database.ExecutedMigrations w.db).1 = .ok h →
      ∀ id ∈ recorded (dbEvents (u.Do now w).trace), id ∉ h.map (·.ID)) ∧
    (∀ hist : σ → List String, KeepsHistory u.Database hist →
      (hist w.db).Nodup → (hist (u.Do now w).world.db).Nodup) := by
  by_cases hne : src = []
  · subst hne
    have hdbeq : (u.Do now w).world.db = w.db := by simp [Upgrader.Do, hsrc, Run.finish]
    rw [Do_empty_source_no_events u now w hsrc, hdbeq]
    exact ⟨by simp [migrated], by simp [recorded], by simp [recorded], fun _ _ h => h⟩
  · cases hread : (u.Database.ExecutedMigrations w.db).1 with
    | error e =>
      obtain ⟨hev, hdbeq⟩ := Do_read_error u now w src e hsrc hne hread
      rw [hev, hdbeq]
      refine ⟨by simp [migrated], by simp [recorded], by simp [recorded], ?_⟩
      intro hist hdb h0
      exact (hdb.read_frame w.db).nodup_iff.2 h0
    | ok h =>
      obtain ⟨k, tail, _, hres, htr, hend⟩ := Do_events_spec u now w src h hsrc hne hread
      have hun := unapplied_ids_nodup src (h.map (·.ID)) hnodup
      have hsub : ∀ n, (((unapplied src (h.map (·.ID))).take n).map (·.ID)).Nodup :=
        fun n => List.Nodup.sublist (List.Sublist.map _ (List.take_sublist _ _)) hun
      have hnotin : ∀ n, ∀ id ∈ ((unapplied src (h.map (·.ID))).take n).map (·.ID),
          id ∉ h.map (·.ID) := by
        intro n id hid
        obtain ⟨m, hm, rfl⟩ := List.mem_map.1 hid
        exact not_mem_history_of_mem_unapplied src _ m (List.mem_of_mem_take hm)
      have hmig : ∃ n, migrated (dbEvents (u.Do now w).trace)
          = (unapplied src (h.map (·.ID))).take n := by
        rw [htr, migrated_append, migrated_okEvents]
        rcases hend with ⟨_, h2, _⟩ | ⟨m, h1, h2, _⟩ | ⟨m, h1, h2, _⟩
        · exact ⟨k, by rw [h2]; simp [migrated]⟩
        · refine ⟨k + 1, ?_⟩
          rw [h2, ← take_append_getElem? _ _ _ h1]
          rfl
        · refine ⟨k + 1, ?_⟩
          rw [h2, ← take_append_getElem? _ _ _ h1]
          rfl
      have hrec : ∃ n, recorded (dbEvents (u.Do now w).trace)
          = ((unapplied src (h.map (·.ID))).take n).map (·.ID) := by
        rw [htr, recorded_append, recorded_okEvents]
        rcases hend with ⟨_, h2, _⟩ | ⟨m, h1, h2, _⟩ | ⟨m, h1, h2, _⟩
        · exact ⟨k, by rw [h2]; simp [recorded]⟩
        · exact ⟨k, by rw [h2]; simp [recorded]⟩
        · refine ⟨k + 1, ?_⟩
          rw [h2, ← take_append_getElem? _ _ _ h1, List.map_append]
          rfl
      obtain ⟨n1, hn1⟩ := hmig
      obtain ⟨n2, hn2⟩ := hrec
      refine ⟨by rw [hn1]; exact hsub n1, by rw [hn2]; exact hsub n2, ?_, ?_⟩
      · intro h2 hh2 id hid
        have : h2 = h := (Except.ok.inj hh2).symm
        subst this
        rw [hn2] at hid
        exact hnotin n2 id hid
      · intro hist hdb h0
        obtain ⟨_, _, hdbeq, _⟩ := Do_of_read_ok u now w src h hsrc hne hread
        obtain ⟨ex, hex, hperm⟩ := loop_history_perm u now hist hdb (buildExecutedByID h) _
          (unapplied_not_in_map h src) (loopStart u w)
        have hexeq : ex = (unapplied src (h.map (·.ID))).take k := by
          have h3 : (⟨(u.loop now (buildExecutedByID h) (unapplied src (h.map (·.ID)))
              (loopStart u w)).executedNow⟩ : UpgradeResult)
              = ⟨(unapplied src (h.map (·.ID))).take k⟩ :=
            Option.some.inj ((Do_of_read_ok u now w src h hsrc hne hread).1.symm.trans hres)
          have h4 := congrArg UpgradeResult.Executed h3
          simp only at h4
          rw [hex] at h4
          simpa [loopStart] using h4
        rw [hdbeq]
        refine hperm.nodup_iff.2 ?_
        have hstart : (hist (loopStart u w).world.db).Perm (hist w.db) := hdb.read_frame w.db
        refine List.Nodup.append (hexeq ▸ hsub k) (hstart.nodup_iff.2 h0) ?_
        intro id h1 h2
        rw [hexeq] at h1
        exact hnotin k id h1 ((hdb.read w.db h hread id).2 (hstart.mem_iff.1 h2))

theorem newestFirstDatabase_keepsHistory : KeepsHistory newestFirstDatabase id where
  read := by
    intro s h hh id
    have : h = s.map mockRecord := (Except.ok.inj hh).symm
    subst this
    simp [mockRecord, Function.comp_def]
  read_frame := fun _ => List.Perm.refl _
  migrate_frame := fun _ _ => List.Perm.refl _
  record_ok := fun i _ s _ => List.Perm.refl (i :: s)
  record_failed := fun _ _ _ h => absurd rfl h

/-- C7, amended, at a database that lists its history newest first and on
which nothing fails, with history `[a]` and source `[a, b, c]`. -/
theorem Do_at_most_once_of_distinct_ids_witness :
    ((migrated (dbEvents ((newestFirstUpgrader [migID "a", migID "b", migID "c"]).Do
        (fun n => n) { db := ["a"], log := (), tick := 0 }).trace)).map (·.ID)).Nodup ∧
    (recorded (dbEvents ((newestFirstUpgrader [migID "a", migID "b", migID "c"]).Do
        (fun n => n) { db := ["a"], log := (), tick := 0 }).trace)).Nodup ∧
    (∀ id ∈ recorded (dbEvents ((newestFirstUpgrader [migID "a", migID "b", migID "c"]).Do
        (fun n => n) { db := ["a"], log := (), tick := 0 }).trace),
        id ∉ (["a"].map mockRecord).map (·.ID)) ∧
    (((newestFirstUpgrader [migID "a", migID "b", migID "c"]).Do
        (fun n => n) { db := ["a"], log := (), tick := 0 }).world.db).Nodup ∧
    recorded (dbEvents ((newestFirstUpgrader [migID "a", migID "b", migID "c"]).Do
        (fun n => n) { db := ["a"], log := (), tick := 0 }).trace) = ["b", "c"] ∧
    ((newestFirstUpgrader [migID "a", migID "b", migID "c"]).Do
        (fun n => n) { db := ["a"], log := (), tick := 0 }).world.db = ["c", "b", "a"] :=
  ⟨(Do_at_most_once_of_distinct_ids (newestFirstUpgrader [migID "a", migID "b", migID "c"])
      (fun n => n) { db := ["a"], log := (), tick := 0 } [migID "a", migID "b", migID "c"]
      rfl (by decide)).1,
   (Do_at_most_once_of_distinct_ids (newestFirstUpgrader [migID "a", migID "b", migID "c"])
      (fun n => n) { db := ["a"], log := (), tick := 0 } [migID "a", migID "b", migID "c"]
      rfl (by decide)).2.1,
   (Do_at_most_once_of_distinct_ids (newestFirstUpgrader [migID "a", migID "b", migID "c"])
      (fun n => n) { db := ["a"], log := (), tick := 0 } [migID "a", migID "b", migID "c"]
      rfl (by decide)).2.2.1 (["a"].map mockRecord) (by rfl),
   (Do_at_most_once_of_distinct_ids (newestFirstUpgrader [migID "a", migID "b", migID "c"])
      (fun n => n) { db := ["a"], log := (), tick := 0 } [migID "a", migID "b", migID "c"]
      rfl (by decide)).2.2.2 id newestFirstDatabase_keepsHistory (by decide),
   by rfl, by rfl⟩

/-! ## C8: the command `record` -/

theorem containsText_already_executed (id : String) :
    containsText ("migration " ++ id ++ " is already executed") "already executed" := by
  refine ⟨"migration ".data ++ id.data ++ " is ".data, [], ?_⟩
  simp only [String.data_append, List.append_nil]
  simp

/-- C8: `cmdRecord` returns a non-nil error and makes no `RecordMigration` call
(the store is left as `IsAlreadyExecuted` left it, or untouched) if the ID is
empty, if `IsAlreadyExecuted` fails, or if it returns true, and in the last
case the error contains `already executed`; otherwise it calls
`RecordMigration` exactly once, with that ID and duration zero, and returns an
error iff that call fails. -/
theorem cmdRecord_spec {σ : Type} (migID : String) (db : Database σ) (s : σ) :
    (migID = "" →
      (cmdRecord migID db s).err ≠ none ∧ (cmdRecord migID db s).trace = [] ∧
      (cmdRecord migID db s).db = s) ∧
    (∀ e, migID ≠ "" → (db.IsAlreadyExecuted migID s).1 = .error e →
      (cmdRecord migID db s).err ≠ none ∧ recordCalls (cmdRecord migID db s).trace = [] ∧
      (cmdRecord migID db s).db = (db.IsAlreadyExecuted migID s).2) ∧
    (migID ≠ "" → (db.IsAlreadyExecuted migID s).1 = .ok true →
      (∃ msg, (cmdRecord migID db s).err = some msg ∧ containsText msg "already executed") ∧
      recordCalls (cmdRecord migID db s).trace = [] ∧
      (cmdRecord migID db s).db = (db.IsAlreadyExecuted migID s).2) ∧
    (migID ≠ "" → (db.IsAlreadyExecuted migID s).1 = .ok false →
      recordCalls (cmdRecord migID db s).trace = [(migID, 0)] ∧
      ((cmdRecord migID db s).err ≠ none ↔
        (db.RecordMigration migID 0 (db.IsAlreadyExecuted migID s).2).1 ≠ none) ∧
      (cmdRecord migID db s).db
        = (db.RecordMigration migID 0 (db.IsAlreadyExecuted migID s).2).2) := by
  refine ⟨?_, ?_, ?_, ?_⟩
  · intro h
    simp [cmdRecord, h]
  · intro e h hr
    simp [cmdRecord, h, hr, recordCalls]
  · intro h hr
    refine ⟨⟨_, ?_, containsText_already_executed migID⟩, ?_, ?_⟩ <;>
      simp [cmdRecord, h, hr, recordCalls]
  · intro h hr
    cases hrec : (db.RecordMigration migID 0 (db.IsAlreadyExecuted migID s).2).1 <;>
      simp [cmdRecord, h, hr, hrec, recordCalls]

/-- C8 at an empty ID, at a database whose check fails, at an ID that is
already recorded and at one that is not. -/
theorem cmdRecord_spec_witness :
    ((cmdRecord "" memoryDatabase ["x"]).err ≠ none ∧
      (cmdRecord "" memoryDatabase ["x"]).trace = [] ∧
      (cmdRecord "" memoryDatabase ["x"]).db = ["x"]) ∧
    ((cmdRecord "a" unreadableDatabase ["x"]).err ≠ none ∧
      recordCalls (cmdRecord "a" unreadableDatabase ["x"]).trace = [] ∧
      (cmdRecord "a" unreadableDatabase ["x"]).db
        = (unreadableDatabase.IsAlreadyExecuted "a" ["x"]).2) ∧
    ((∃ msg, (cmdRecord "x" memoryDatabase ["x"]).err = some msg ∧
        containsText msg "already executed") ∧
      recordCalls (cmdRecord "x" memoryDatabase ["x"]).trace = [] ∧
      (cmdRecord "x" memoryDatabase ["x"]).db = (memoryDatabase.IsAlreadyExecuted "x" ["x"]).2) ∧
    (recordCalls (cmdRecord "a" memoryDatabase ["x"]).trace = [("a", 0)] ∧
      ((cmdRecord "a" memoryDatabase ["x"]).err ≠ none ↔
        (memoryDatabase.RecordMigration "a" 0
          (memoryDatabase.IsAlreadyExecuted "a" ["x"]).2).1 ≠ none) ∧
      (cmdRecord "a" memoryDatabase ["x"]).db
        = (memoryDatabase.RecordMigration "a" 0
            (memoryDatabase.IsAlreadyExecuted "a" ["x"]).2).2) :=
  ⟨(cmdRecord_spec "" memoryDatabase ["x"]).1 rfl,
   (cmdRecord_spec "a" unreadableDatabase ["x"]).2.1 "connection refused" (by decide) rfl,
   (cmdRecord_spec "x" memoryDatabase ["x"]).2.2.1 (by decide) rfl,
   (cmdRecord_spec "a" memoryDatabase ["x"]).2.2.2 (by decide) rfl⟩

/-! ## C9: `DatabasePostgres.RecordMigration` -/

theorem isPrimaryKeyErr_iff (err : SqlError) :
    isPrimaryKeyErr err = true ↔ ∃ message, err = SqlError.pq "23505" message := by
  cases err with
  | pq code message =>
    by_cases h : code = "23505"
    · simp [isPrimaryKeyErr, h]
    · simp [isPrimaryKeyErr, h]
  | other text => simp [isPrimaryKeyErr]

theorem could_not_insert_ne_already_executed (text id : String) :
    "could not insert record in migrations_executed: " ++ text
      ≠ "migration " ++ id ++ " is already executed" := by
  intro h
  have := congrArg String.data h
  simp [String.data_append] at this

theorem containsText_id_already_executed (id : String) :
    containsText ("migration " ++ id ++ " is already executed") id := by
  refine ⟨"migration ".data, " is already executed".data, ?_⟩
  simp [String.data_append]

theorem infix_of_infix_append_of_no_overlap {α : Type} (sub p t : List α)
    (h : ∀ q, q <:+ p → q ≠ [] → ¬ sub <+: q ∧ ¬ q <+: sub)
    (hi : sub <:+: p ++ t) : sub <:+: t := by
  obtain ⟨a, b, hab⟩ := hi
  rw [List.append_assoc] at hab
  rcases List.append_eq_append_iff.1 hab with ⟨q, hp, hq⟩ | ⟨c, _, ht⟩
  · by_cases hqe : q = []
    · subst hqe
      exact ⟨[], b, by simpa using hq⟩
    · have hsuf : q <:+ p := ⟨a, hp.symm⟩
      obtain ⟨h1, h2⟩ := h q hsuf hqe
      rcases List.append_eq_append_iff.1 hq with ⟨c, hc, _⟩ | ⟨c, hc, _⟩
      · exact absurd ⟨c, hc.symm⟩ h1
      · exact absurd ⟨c, hc.symm⟩ h2
  · exact ⟨c, b, by rw [ht, List.append_assoc]⟩

theorem could_not_insert_no_overlap :
    ∀ q ∈ "could not insert record in migrations_executed: ".data.tails, q ≠ [] →
      ¬ "already executed".data <+: q ∧ ¬ q <+: "already executed".data := by
  decide

/-- The text `already executed` occurs in the error of a failed insert only
inside the text of the underlying failure. -/
theorem containsText_could_not_insert (text : String)
    (h : containsText ("could not insert record in migrations_executed: " ++ text)
      "already executed") : containsText text "already executed" := by
  unfold containsText at h ⊢
  rw [String.data_append] at h
  exact infix_of_infix_append_of_no_overlap _ _ _
    (fun q hq => could_not_insert_no_overlap q ((List.mem_tails _ _).2 hq)) h

/-- The error `RecordMigration` returns, by the outcome of the insert. -/
theorem RecordMigration_result {τ : Type} (dp : SqlDB τ) (id : String) (duration : Int)
    (s : τ) :
    (DatabasePostgres.RecordMigration dp id duration s).1
      = match (dp.Exec insertMigrationQuery
          [SqlArg.text id, SqlArg.int (Milliseconds duration)] s).1 with
        | some err =>
          if isPrimaryKeyErr err then some ("migration " ++ id ++ " is already executed")
          else some ("could not insert record in migrations_executed: " ++ err.Error)
        | none => none := by
  unfold DatabasePostgres.RecordMigration
  simp only
  split
  · split <;> rfl
  · rfl

/-- C9, as stated, fails on an insert that fails with another code and a text
that has the words: on a store whose trigger raises `migration a is already
executed` with code P0001, `RecordMigration` returns
`could not insert record in migrations_executed: pq: migration a is already
executed`, which contains `already executed` and the ID `a` although the
failure is not a unique violation. -/
theorem RecordMigration_quotes_failure_text :
    (raisingStore.Exec insertMigrationQuery
        [SqlArg.text "a", SqlArg.int (Milliseconds 0)] ()).1
      = some (SqlError.pq "P0001" "migration a is already executed") ∧
    (¬ ∃ message, (raisingStore.Exec insertMigrationQuery
        [SqlArg.text "a", SqlArg.int (Milliseconds 0)] ()).1
          = some (SqlError.pq "23505" message)) ∧
    (DatabasePostgres.RecordMigration raisingStore "a" 0 ()).1
      = some "could not insert record in migrations_executed: pq: migration a is already executed" ∧
    containsText
      "could not insert record in migrations_executed: pq: migration a is already executed"
      "already executed" ∧
    containsText
      "could not insert record in migrations_executed: pq: migration a is already executed"
      "a" := by
  refine ⟨rfl, ?_, rfl,
    ⟨"could not insert record in migrations_executed: pq: migration a is ".data, [], rfl⟩,
    ⟨"could not insert record in migr".data,
      "tions_executed: pq: migration a is already executed".data, rfl⟩⟩
  rintro ⟨message, h⟩
  have hcode : SqlError.pq "P0001" "migration a is already executed"
      = SqlError.pq "23505" message := Option.some.inj h
  have : "P0001" = "23505" := (SqlError.pq.inj hcode).1
  exact absurd this (by decide)

theorem containsText_append_left (pre text sub : String) (h : containsText text sub) :
    containsText (pre ++ text) sub := by
  obtain ⟨a, b, hab⟩ := h
  exact ⟨pre.data ++ a, b, by simp [String.data_append, ← hab]⟩

/-- C9, amended: `DatabasePostgres.RecordMigration` returns nil iff the insert
succeeded; it returns exactly the error `migration <id> is already executed`
(which contains `already executed` and the ID) iff the insert failed with a
`pq` error of code 23505; and for every other failure of the insert it returns
`could not insert record in migrations_executed: ` followed by the text of that
failure, which is not the already-executed error of any ID and contains
`already executed` exactly when the text of the failure itself does. -/
theorem RecordMigration_distinguishes_duplicate {τ : Type} (dp : SqlDB τ) (id : String)
    (duration : Int) (s : τ) :
    ((DatabasePostgres.RecordMigration dp id duration s).1 = none ↔
      (dp.Exec insertMigrationQuery
        [SqlArg.text id, SqlArg.int (Milliseconds duration)] s).1 = none) ∧
    ((DatabasePostgres.RecordMigration dp id duration s).1
        = some ("migration " ++ id ++ " is already executed") ↔
      ∃ message, (dp.Exec insertMigrationQuery
        [SqlArg.text id, SqlArg.int (Milliseconds duration)] s).1
          = some (SqlError.pq "23505" message)) ∧
    (containsText ("migration " ++ id ++ " is already executed") "already executed" ∧
      containsText ("migration " ++ id ++ " is already executed") id) ∧
    (∀ err, (dp.Exec insertMigrationQuery
        [SqlArg.text id, SqlArg.int (Milliseconds duration)] s).1 = some err →
      (¬ ∃ message, err = SqlError.pq "23505" message) →
      (DatabasePostgres.RecordMigration dp id duration s).1
          = some ("could not insert record in migrations_executed: " ++ err.Error) ∧
      (∀ id2, (DatabasePostgres.RecordMigration dp id duration s).1
          ≠ some ("migration " ++ id2 ++ " is already executed")) ∧
      (∀ msg, (DatabasePostgres.RecordMigration dp id duration s).1 = some msg →
        (containsText msg "already executed" ↔
          containsText err.Error "already executed"))) := by
  refine ⟨?_, ?_, ⟨containsText_already_executed id, containsText_id_already_executed id⟩, ?_⟩
  · rw [RecordMigration_result]
    cases (dp.Exec insertMigrationQuery
        [SqlArg.text id, SqlArg.int (Milliseconds duration)] s).1 with
    | none => simp
    | some err => by_cases hp : isPrimaryKeyErr err = true <;> simp [hp]
  · rw [RecordMigration_result]
    cases (dp.Exec insertMigrationQuery
        [SqlArg.text id, SqlArg.int (Milliseconds duration)] s).1 with
    | none => simp
    | some err =>
      by_cases hp : isPrimaryKeyErr err = true
      · simp only [hp, if_true, true_iff]
        obtain ⟨message, hm⟩ := (isPrimaryKeyErr_iff err).1 hp
        exact ⟨message, by rw [hm]⟩
      · simp only [hp]
        constructor
        · intro h
          simp only [Bool.false_eq_true, if_false, Option.some.injEq] at h
          exact absurd h (could_not_insert_ne_already_executed _ _)
        · rintro ⟨message, hm⟩
          exact absurd ((isPrimaryKeyErr_iff err).2 ⟨message, Option.some.inj hm⟩) hp
  · intro err hx hnot
    have hp : ¬ isPrimaryKeyErr err = true := fun h => hnot ((isPrimaryKeyErr_iff err).1 h)
    rw [RecordMigration_result, hx]
    simp only [hp, Bool.false_eq_true, if_false, true_and]
    refine ⟨?_, ?_⟩
    · intro id2 h
      exact could_not_insert_ne_already_executed _ _ (Option.some.inj h)
    · intro msg hmsg
      rw [← Option.some.inj hmsg]
      exact ⟨containsText_could_not_insert _, containsText_append_left _ _ _⟩

/-- C9, amended, at the small store: a first insert, an insert of an ID that
has a row, and an insert over a connection that is down. -/
theorem RecordMigration_distinguishes_duplicate_witness :
    ((DatabasePostgres.RecordMigration pgStore "a" 5000000
        ⟨[], [], [], false, false⟩).1 = none ↔
      (pgStore.Exec insertMigrationQuery [SqlArg.text "a", SqlArg.int (Milliseconds 5000000)]
        ⟨[], [], [], false, false⟩).1 = none) ∧
    ((DatabasePostgres.RecordMigration pgStore "a" 5000000
        ⟨[("a", 5)], [], [], false, false⟩).1 = some ("migration " ++ "a" ++ " is already executed") ↔
      ∃ message, (pgStore.Exec insertMigrationQuery
        [SqlArg.text "a", SqlArg.int (Milliseconds 5000000)]
        ⟨[("a", 5)], [], [], false, false⟩).1 = some (SqlError.pq "23505" message)) ∧
    ((DatabasePostgres.RecordMigration pgStore "a" 5000000 ⟨[("a", 5)], [], [], true, false⟩).1
        = some ("could not insert record in migrations_executed: "
            ++ (SqlError.other "connection refused").Error) ∧
      (∀ id2, (DatabasePostgres.RecordMigration pgStore "a" 5000000
          ⟨[("a", 5)], [], [], true, false⟩).1
        ≠ some ("migration " ++ id2 ++ " is already executed")) ∧
      (∀ msg, (DatabasePostgres.RecordMigration pgStore "a" 5000000
          ⟨[("a", 5)], [], [], true, false⟩).1 = some msg →
          ¬ containsText msg "already executed")) :=
  ⟨(RecordMigration_distinguishes_duplicate pgStore "a" 5000000 ⟨[], [], [], false, false⟩).1,
   (RecordMigration_distinguishes_duplicate pgStore "a" 5000000
      ⟨[("a", 5)], [], [], false, false⟩).2.1,
   ((RecordMigration_distinguishes_duplicate pgStore "a" 5000000
      ⟨[("a", 5)], [], [], true, false⟩).2.2.2 (SqlError.other "connection refused") rfl
      (by simp)).1,
   ((RecordMigration_distinguishes_duplicate pgStore "a" 5000000
      ⟨[("a", 5)], [], [], true, false⟩).2.2.2 (SqlError.other "connection refused") rfl
      (by simp)).2.1,
   fun msg hmsg hc => absurd
     ((((RecordMigration_distinguishes_duplicate pgStore "a" 5000000
        ⟨[("a", 5)], [], [], true, false⟩).2.2.2 (SqlError.other "connection refused") rfl
        (by simp)).2.2 msg hmsg).1 hc) (by decide)⟩

/-! ## C10: `DatabasePostgres.Migrate` -/

/-- Whatever `tx.Commit()` returns, `Migrate` returns nil once the transaction
has begun and the content has been executed. -/
theorem Migrate_ignores_commit {τ : Type} (dp : SqlDB τ) (mig : Migration) (s : τ)
    (hb : (dp.Begin s).1 = none) (he : (dp.TxExec mig.Content (dp.Begin s).2).1 = none) :
    (DatabasePostgres.Migrate dp mig s).1 = none ∧
    (DatabasePostgres.Migrate dp mig s).2
      = (dp.TxCommit (dp.TxExec mig.Content (dp.Begin s).2).2).2 := by
  unfold DatabasePostgres.Migrate
  simp [hb, he]

/-- C10: on a store whose commit fails, `Migrate` begins the transaction,
executes the content, gets an error from `tx.Commit()` and returns nil, while
the content has not taken effect: nothing is committed. -/
theorem Migrate_returns_nil_when_commit_fails :
    (pgStore.Begin ⟨[], [], [], false, true⟩).1 = none ∧
    (pgStore.TxExec "CREATE TABLE first ()" (pgStore.Begin ⟨[], [], [], false, true⟩).2).1
      = none ∧
    (pgStore.TxCommit (pgStore.TxExec "CREATE TABLE first ()"
      (pgStore.Begin ⟨[], [], [], false, true⟩).2).2).1 = some (SqlError.other "commit failed") ∧
    (DatabasePostgres.Migrate pgStore { ID := "1.sql", Content := "CREATE TABLE first ()" }
      ⟨[], [], [], false, true⟩).1 = none ∧
    (DatabasePostgres.Migrate pgStore { ID := "1.sql", Content := "CREATE TABLE first ()" }
      ⟨[], [], [], false, true⟩).2.committed = [] := by
  refine ⟨rfl, rfl, rfl, rfl, rfl⟩

/-! ## C11: the logger -/

theorem withoutLog_append (t t2 : List Call) :
    withoutLog (t ++ t2) = withoutLog t ++ withoutLog t2 := by
  simp [withoutLog]

theorem withoutLog_migrate (mig : Migration) (err : Error) :
    withoutLog [Call.migrate mig err] = [Call.migrate mig err] := rfl

theorem withoutLog_record (id : String) (d : Int) (err : Error) :
    withoutLog [Call.recordMigration id d err] = [Call.recordMigration id d err] := rfl

theorem Println_withoutLog {σ L : Type} (u : Upgrader σ L) (v : List LogArg) (w : Run σ L) :
    withoutLog (u.Println v w).trace = withoutLog w.trace := by
  unfold Upgrader.Println
  cases u.Logger <;> simp [withoutLog, Call.isLog]

theorem Println_nil_logger {σ L : Type} (u : Upgrader σ L) (h : u.Logger = none)
    (v : List LogArg) (w : Run σ L) : u.Println v w = w := by
  unfold Upgrader.Println
  rw [h]

/-- One iteration shows the same, apart from the logger, whatever the logger
is. -/
theorem attempt_view {σ L1 L2 : Type} (src : Source) (db : Database σ)
    (lg1 : Option (Logger L1)) (lg2 : Option (Logger L2)) (now : Clock) (mig : Migration)
    (st1 : LoopState σ L1) (st2 : LoopState σ L2) (h : st1.view = st2.view) :
    (Upgrader.attempt ⟨lg1, src, db⟩ now mig st1).1.view
      = (Upgrader.attempt ⟨lg2, src, db⟩ now mig st2).1.view ∧
    (Upgrader.attempt ⟨lg1, src, db⟩ now mig st1).2
      = (Upgrader.attempt ⟨lg2, src, db⟩ now mig st2).2 := by
  simp only [LoopState.view, Prod.mk.injEq] at h
  obtain ⟨hdb, htick, htrace, hex, _⟩ := h
  unfold Upgrader.attempt
  simp only [Println_db, Println_tick, hdb, htick]
  cases (db.Migrate mig st2.world.db).1 with
  | some e =>
    simp [LoopState.view, withoutLog_append, Println_withoutLog, Println_db, Println_tick,
      hdb, htick, htrace, hex]
  | none =>
    simp only
    cases (db.RecordMigration mig.ID (now (st2.world.tick + 1) - now st2.world.tick)
        (db.Migrate mig st2.world.db).2).1 with
    | some e =>
      simp [LoopState.view, withoutLog_append, Println_withoutLog, Println_db, Println_tick,
        hdb, htick, htrace, hex]
    | none =>
      simp [LoopState.view, withoutLog_append, Println_withoutLog, Println_db, Println_tick,
        hdb, htick, htrace, hex]

/-- The loop shows the same, apart from the logger, whatever the logger is. -/
theorem loop_view {σ L1 L2 : Type} (src : Source) (db : Database σ)
    (lg1 : Option (Logger L1)) (lg2 : Option (Logger L2)) (now : Clock)
    (ebi : List (String × Executed)) (l : List Migration)
    (st1 : LoopState σ L1) (st2 : LoopState σ L2) (h : st1.view = st2.view) :
    (Upgrader.loop ⟨lg1, src, db⟩ now ebi l st1).view
      = (Upgrader.loop ⟨lg2, src, db⟩ now ebi l st2).view := by
  induction l generalizing st1 st2 with
  | nil => simpa [Upgrader.loop] using h
  | cons m ms ih =>
    by_cases hl : (ebi.lookup m.ID).isSome = true
    · rw [loop_cons_skip _ _ _ _ _ _ hl, loop_cons_skip _ _ _ _ _ _ hl]
      exact ih st1 st2 h
    · have hl2 : (ebi.lookup m.ID).isSome = false := Bool.eq_false_iff.2 hl
      rw [loop_cons_attempt _ _ _ _ _ _ hl2, loop_cons_attempt _ _ _ _ _ _ hl2]
      obtain ⟨hv, hc⟩ := attempt_view src db lg1 lg2 now m st1 st2 h
      rw [hc]
      cases (Upgrader.attempt ⟨lg2, src, db⟩ now m st2).2 with
      | true => simpa using ih _ _ hv
      | false => simpa using hv

/-- A run of `Do` shows the same, apart from the logger, whatever the logger
is. -/
theorem Do_view {σ L1 L2 : Type} (src : Source) (db : Database σ)
    (lg1 : Option (Logger L1)) (lg2 : Option (Logger L2)) (now : Clock)
    (s : σ) (l1 : L1) (l2 : L2) (t : Nat) :
    (Upgrader.Do ⟨lg1, src, db⟩ now ⟨s, l1, t⟩).view
      = (Upgrader.Do ⟨lg2, src, db⟩ now ⟨s, l2, t⟩).view := by
  unfold Upgrader.Do
  simp only
  cases src.Migrations with
  | error e => rfl
  | ok migrationsSrc =>
    simp only
    by_cases hlen : migrationsSrc.length = 0
    · simp only [hlen, if_true]
      rfl
    · simp only [hlen, if_false]
      cases hr : (db.ExecutedMigrations s).1 with
      | error e => rfl
      | ok executedAlready =>
        simp only
        have hv := loop_view src db lg1 lg2 now (buildExecutedByID executedAlready) migrationsSrc
          { world := { db := (db.ExecutedMigrations s).2, log := l1, tick := t,
                       trace := [Call.srcMigrations] ++ [Call.executedMigrations none] },
            executedNow := [], err := none }
          { world := { db := (db.ExecutedMigrations s).2, log := l2, tick := t,
                       trace := [Call.srcMigrations] ++ [Call.executedMigrations none] },
            executedNow := [], err := none } rfl
        generalize Upgrader.loop ⟨lg1, src, db⟩ now (buildExecutedByID executedAlready)
          migrationsSrc _ = A at hv ⊢
        generalize Upgrader.loop ⟨lg2, src, db⟩ now (buildExecutedByID executedAlready)
          migrationsSrc _ = B at hv ⊢
        simp only [LoopState.view, Prod.mk.injEq] at hv
        obtain ⟨h1, h2, h3, h4, h5⟩ := hv
        rw [h5]
        cases B.err <;> simp [DoResult.view, Run.finish, h1, h2, h3, h4]

theorem attempt_nil_logger {σ L : Type} (u : Upgrader σ L) (h : u.Logger = none)
    (now : Clock) (mig : Migration) (st : LoopState σ L)
    (hst : withoutLog st.world.trace = st.world.trace) :
    withoutLog (u.attempt now mig st).1.world.trace = (u.attempt now mig st).1.world.trace ∧
    (u.attempt now mig st).1.world.log = st.world.log := by
  unfold Upgrader.attempt
  simp only [Println_nil_logger u h]
  split
  · simp [withoutLog_append, hst, withoutLog_migrate]
  · split <;> simp [withoutLog_append, hst, withoutLog_migrate, withoutLog_record] <;> rfl

/-- With a nil logger the loop adds no logger call to the trace and leaves the
logger state alone. -/
theorem loop_nil_logger {σ L : Type} (u : Upgrader σ L) (h : u.Logger = none)
    (now : Clock) (ebi : List (String × Executed)) (l : List Migration)
    (st : LoopState σ L) (hst : withoutLog st.world.trace = st.world.trace) :
    withoutLog (u.loop now ebi l st).world.trace = (u.loop now ebi l st).world.trace ∧
    (u.loop now ebi l st).world.log = st.world.log := by
  induction l generalizing st with
  | nil => exact ⟨by simpa [Upgrader.loop] using hst, by simp [Upgrader.loop]⟩
  | cons m ms ih =>
    by_cases hl : (ebi.lookup m.ID).isSome = true
    · rw [loop_cons_skip _ _ _ _ _ _ hl]
      exact ih st hst
    · rw [loop_cons_attempt _ _ _ _ _ _ (Bool.eq_false_iff.2 hl)]
      obtain ⟨ha, hlog⟩ := attempt_nil_logger u h now m st hst
      cases (u.attempt now m st).2 with
      | true =>
        simp only [if_true]
        obtain ⟨h1, h2⟩ := ih _ ha
        exact ⟨h1, h2.trans hlog⟩
      | false => simpa using ⟨ha, hlog⟩

/-- With a nil logger a run of `Do` makes no logger call and leaves the logger
state alone. -/
theorem Do_nil_logger {σ L : Type} (u : Upgrader σ L) (h : u.Logger = none) (now : Clock)
    (w : World σ L) :
    withoutLog (u.Do now w).trace = (u.Do now w).trace ∧ (u.Do now w).world.log = w.log := by
  unfold Upgrader.Do
  simp only
  cases u.Source.Migrations with
  | error e => exact ⟨rfl, rfl⟩
  | ok migrationsSrc =>
    simp only
    by_cases hlen : migrationsSrc.length = 0
    · simp only [hlen, if_true]
      exact ⟨rfl, rfl⟩
    · simp only [hlen, if_false]
      cases hr : (u.Database.ExecutedMigrations w.db).1 with
      | error e => exact ⟨rfl, rfl⟩
      | ok executedAlready =>
        simp only
        have hl := loop_nil_logger u h now (buildExecutedByID executedAlready) migrationsSrc
          { world := { db := (u.Database.ExecutedMigrations w.db).2, log := w.log,
                       tick := w.tick,
                       trace := [Call.srcMigrations] ++ [Call.executedMigrations none] },
            executedNow := [], err := none } rfl
        generalize Upgrader.loop u now (buildExecutedByID executedAlready)
          migrationsSrc _ = A at hl ⊢
        cases A.err <;> exact hl

/-- C11: two runs of `Do` that differ only in the logger (nil or not, of any
implementation and in any logger state) return the same result and the same
error, leave the same store and make the same calls to the source and the
database, in the same order and with the same arguments; with a nil logger the
trace holds no logger call, the logger state is untouched, and `Do` returns
what it returns with any other logger. -/
theorem Do_independent_of_logger {σ L1 L2 : Type} (src : Source) (db : Database σ)
    (lg1 : Option (Logger L1)) (lg2 : Option (Logger L2)) (now : Clock)
    (s : σ) (l1 : L1) (l2 : L2) (t : Nat) :
    ((Upgrader.Do ⟨lg1, src, db⟩ now ⟨s, l1, t⟩).result
        = (Upgrader.Do ⟨lg2, src, db⟩ now ⟨s, l2, t⟩).result ∧
      (Upgrader.Do ⟨lg1, src, db⟩ now ⟨s, l1, t⟩).err
        = (Upgrader.Do ⟨lg2, src, db⟩ now ⟨s, l2, t⟩).err ∧
      (Upgrader.Do ⟨lg1, src, db⟩ now ⟨s, l1, t⟩).world.db
        = (Upgrader.Do ⟨lg2, src, db⟩ now ⟨s, l2, t⟩).world.db ∧
      withoutLog (Upgrader.Do ⟨lg1, src, db⟩ now ⟨s, l1, t⟩).trace
        = withoutLog (Upgrader.Do ⟨lg2, src, db⟩ now ⟨s, l2, t⟩).trace) ∧
    ((∀ c ∈ (Upgrader.Do ⟨(none : Option (Logger L1)), src, db⟩ now ⟨s, l1, t⟩).trace,
          c.isLog = false) ∧
      (Upgrader.Do ⟨(none : Option (Logger L1)), src, db⟩ now ⟨s, l1, t⟩).world.log = l1 ∧
      (Upgrader.Do ⟨(none : Option (Logger L1)), src, db⟩ now ⟨s, l1, t⟩).result
        = (Upgrader.Do ⟨lg2, src, db⟩ now ⟨s, l2, t⟩).result ∧
      (Upgrader.Do ⟨(none : Option (Logger L1)), src, db⟩ now ⟨s, l1, t⟩).err
        = (Upgrader.Do ⟨lg2, src, db⟩ now ⟨s, l2, t⟩).err ∧
      (Upgrader.Do ⟨(none : Option (Logger L1)), src, db⟩ now ⟨s, l1, t⟩).trace
        = withoutLog (Upgrader.Do ⟨lg2, src, db⟩ now ⟨s, l2, t⟩).trace) := by
  have hv := Do_view src db lg1 lg2 now s l1 l2 t
  have hv0 := Do_view src db (none : Option (Logger L1)) lg2 now s l1 l2 t
  obtain ⟨hn, hlog⟩ := Do_nil_logger ⟨(none : Option (Logger L1)), src, db⟩ rfl now ⟨s, l1, t⟩
  simp only [DoResult.view, Prod.mk.injEq] at hv hv0
  refine ⟨⟨hv.1, hv.2.1, hv.2.2.1, hv.2.2.2.2⟩, ?_, hlog, hv0.1, hv0.2.1, ?_⟩
  · intro c hc
    rw [← hn] at hc
    simpa [withoutLog] using (List.mem_filter.1 hc).2
  · rw [← hn]
    exact hv0.2.2.2.2

/-! ## C12: `SourceDir.Migrations` -/

mutual
/-- On a tree without walk errors the walk appends the paths of the
non-directory files, in order, and returns no error. -/
theorem walk_walkable (path : Path) : ∀ (node : FsNode) (acc : List Path),
    node.walkable = true →
    walk path SourceDir.filepathsFn node acc
      = (none, acc ++ node.files.map (fun f => path.below f.1))
  | .file data, acc, _ => by
    simp [walk, SourceDir.filepathsFn, FsNode.files, Path.below]
  | .dir entries, acc, h => by
    have h2 : FsNode.walkableIn entries = true := by simpa [FsNode.walkable] using h
    simp only [walk, SourceDir.filepathsFn, FsNode.files]
    simpa using walkNames_walkable path entries acc h2
  | .unreadableDir e, acc, h => by simp [FsNode.walkable] at h
  | .noStat e, acc, h => by simp [FsNode.walkable] at h
/-- The same for the entries of a directory. -/
theorem walkNames_walkable (path : Path) :
    ∀ (entries : List (String × FsNode)) (acc : List Path),
    FsNode.walkableIn entries = true →
    walkNames path SourceDir.filepathsFn entries acc
      = (none, acc ++ (FsNode.filesIn entries).map (fun f => path.below f.1))
  | [], acc, _ => by simp [walkNames, FsNode.filesIn]
  | (name, child) :: rest, acc, h => by
    simp only [FsNode.walkableIn, Bool.and_eq_true] at h
    simp only [walkNames, walk_walkable (path.Join name) child acc h.1,
      walkNames_walkable path rest _ h.2, FsNode.filesIn]
    simp [Path.below, Path.Join, Function.comp_def]
end

mutual
/-- On a tree with a walk error the walk returns an error. -/
theorem walk_not_walkable (path : Path) : ∀ (node : FsNode) (acc : List Path),
    node.walkable = false → ∃ e, (walk path SourceDir.filepathsFn node acc).1 = some e
  | .file data, acc, h => by simp [FsNode.walkable] at h
  | .dir entries, acc, h => by
    have h2 : FsNode.walkableIn entries = false := by simpa [FsNode.walkable] using h
    simp only [walk, SourceDir.filepathsFn]
    simpa using walkNames_not_walkable path entries acc h2
  | .unreadableDir e, acc, _ => ⟨e, by simp [walk, SourceDir.filepathsFn]⟩
  | .noStat e, acc, _ => ⟨e, by simp [walk, SourceDir.filepathsFn]⟩
/-- The same for the entries of a directory. -/
theorem walkNames_not_walkable (path : Path) :
    ∀ (entries : List (String × FsNode)) (acc : List Path),
    FsNode.walkableIn entries = false →
    ∃ e, (walkNames path SourceDir.filepathsFn entries acc).1 = some e
  | [], acc, h => by simp [FsNode.walkableIn] at h
  | (name, child) :: rest, acc, h => by
    cases hc : child.walkable with
    | false =>
      obtain ⟨e, he⟩ := walk_not_walkable (path.Join name) child acc hc
      exact ⟨e, by simp [walkNames, he]⟩
    | true =>
      have hr : FsNode.walkableIn rest = false := by
        simpa [FsNode.walkableIn, hc] using h
      simp only [walkNames, walk_walkable (path.Join name) child acc hc]
      exact walkNames_not_walkable path rest _ hr
end

mutual
/-- When no directory lists a name twice, the names of a file of the tree lead
to that file. -/
theorem at_of_mem_files : ∀ (node : FsNode), node.namesDistinct = true →
    ∀ f ∈ node.files, node.at f.1 = some (.file f.2)
  | .file data, _, f, hf => by
    simp only [FsNode.files, List.mem_singleton] at hf
    subst hf
    simp [FsNode.at]
  | .dir entries, h, f, hf => by
    have h2 : FsNode.namesDistinctIn entries = true := by simpa [FsNode.namesDistinct] using h
    obtain ⟨name, rest, h1, _, h3⟩ := atIn_of_mem_filesIn entries h2 f hf
    rw [h1]
    simpa [FsNode.at] using h3
  | .unreadableDir e, _, f, hf => by simp [FsNode.files] at hf
  | .noStat e, _, f, hf => by simp [FsNode.files] at hf
/-- The same for the entries of a directory. -/
theorem atIn_of_mem_filesIn : ∀ (entries : List (String × FsNode)),
    FsNode.namesDistinctIn entries = true →
    ∀ f ∈ FsNode.filesIn entries, ∃ name rest, f.1 = name :: rest ∧
      name ∈ entries.map (·.1) ∧ FsNode.atIn entries name rest = some (.file f.2)
  | [], _, f, hf => by simp [FsNode.filesIn] at hf
  | (n, child) :: es, h, f, hf => by
    simp only [FsNode.namesDistinctIn, Bool.and_eq_true] at h
    obtain ⟨⟨hn, hc⟩, hes⟩ := h
    simp only [FsNode.filesIn, List.mem_append, List.mem_map] at hf
    rcases hf with ⟨g, hg, rfl⟩ | hf
    · exact ⟨n, g.1, rfl, by simp, by simpa [FsNode.atIn] using at_of_mem_files child hc g hg⟩
    · obtain ⟨name, rest, h1, h2, h3⟩ := atIn_of_mem_filesIn es hes f hf
      have hne : n ≠ name := by
        rintro rfl
        have hcontains : (es.map (·.1)).contains n = true := by simpa using h2
        rw [hcontains] at hn
        simp at hn
      exact ⟨name, rest, h1, by simp [h2], by simpa [FsNode.atIn, hne] using h3⟩
end

/-- The loop of `Migrations` over the paths of files of the tree: a migration
for each file when all can be opened and read, an error otherwise. -/
theorem readFiles_files (dir : String) (tree : FsNode) (fs : List (List String × FileData))
    (hat : ∀ f ∈ fs, tree.at f.1 = some (.file f.2)) (acc : List Migration) :
    (fs.all (fun f => f.2.isContent) = true →
      SourceDir.readFiles tree (fs.map (fun f => ⟨dir, f.1⟩)) acc
        = .ok (acc ++ fs.map (fun f =>
            { ID := Base (Path.str ⟨dir, f.1⟩), Content := f.2.text }))) ∧
    (fs.all (fun f => f.2.isContent) = false →
      ∃ e, SourceDir.readFiles tree (fs.map (fun f => ⟨dir, f.1⟩)) acc = .error e) := by
  induction fs generalizing acc with
  | nil => simp [SourceDir.readFiles]
  | cons f rest ih =>
    have hf := hat f (List.mem_cons_self _ _)
    have hrest : ∀ g ∈ rest, tree.at g.1 = some (.file g.2) :=
      fun g hg => hat g (List.mem_cons_of_mem _ hg)
    obtain ⟨names, data⟩ := f
    simp only at hf
    cases data with
    | content c =>
      have hstep : ∀ acc2, SourceDir.readFiles tree
          (((names, FileData.content c) :: rest).map (fun f => ⟨dir, f.1⟩)) acc2
          = SourceDir.readFiles tree (rest.map (fun f => ⟨dir, f.1⟩))
              (acc2 ++ [{ ID := Base (Path.str ⟨dir, names⟩), Content := c }]) := by
        intro acc2
        simp [SourceDir.readFiles, osOpen, ioReadAll, hf]
      rw [hstep]
      obtain ⟨ih1, ih2⟩ := ih hrest (acc ++ [{ ID := Base (Path.str ⟨dir, names⟩), Content := c }])
      constructor
      · intro h
        rw [List.all_cons] at h
        have h2 : rest.all (fun f => f.2.isContent) = true := (Bool.and_eq_true _ _ ▸ h).2
        rw [ih1 h2]
        simp [FileData.text]
      · intro h
        rw [List.all_cons] at h
        have h2 : rest.all (fun f => f.2.isContent) = false := by
          cases hr : rest.all (fun f => f.2.isContent) with
          | false => rfl
          | true => rw [hr] at h; exact absurd h (by simp [FileData.isContent])
        exact ih2 h2
    | openFails e =>
      constructor
      · intro h
        rw [List.all_cons] at h
        simp [FileData.isContent] at h
      · intro _
        exact ⟨"could not open file " ++ Path.str ⟨dir, names⟩ ++ ": " ++ e,
          by simp [SourceDir.readFiles, osOpen, hf]⟩
    | readFails e =>
      constructor
      · intro h
        rw [List.all_cons] at h
        simp [FileData.isContent] at h
      · intro _
        exact ⟨"could not read contents of file " ++ Path.str ⟨dir, names⟩ ++ ": " ++ e,
          by simp [SourceDir.readFiles, osOpen, ioReadAll, hf]⟩

/-- What `SourceDir.Migrations` returns on a tree in which no directory lists a
name twice: a migration per non-directory file, in walk order, when the tree
is readable, an error otherwise. -/
theorem Migrations_of_tree (sr : SourceDir) (tree : FsNode)
    (hd : tree.namesDistinct = true) :
    (tree.readable = true →
      sr.Migrations tree = .ok (tree.files.map (fun f =>
        { ID := Base (Path.str ⟨sr.Dir, f.1⟩), Content := f.2.text }))) ∧
    (tree.readable = false → ∃ e, sr.Migrations tree = .error e) := by
  cases hw : tree.walkable with
  | false =>
    constructor
    · intro h
      unfold FsNode.readable at h
      rw [hw, Bool.false_and] at h
      exact absurd h (by decide)
    · intro _
      obtain ⟨e, he⟩ := walk_not_walkable ⟨sr.Dir, []⟩ tree [] hw
      exact ⟨"could get migration files paths: " ++ e,
        by simp [SourceDir.Migrations, SourceDir.filepaths, Walk, he]⟩
  | true =>
    have hwalk := walk_walkable ⟨sr.Dir, []⟩ tree [] hw
    have hpaths : sr.Migrations tree
        = SourceDir.readFiles tree (tree.files.map (fun f => ⟨sr.Dir, f.1⟩)) [] := by
      simp [SourceDir.Migrations, SourceDir.filepaths, Walk, hwalk, Path.below]
    obtain ⟨h1, h2⟩ := readFiles_files sr.Dir tree tree.files (at_of_mem_files tree hd) []
    rw [hpaths]
    constructor
    · intro h
      have hall : tree.files.all (fun f => f.2.isContent) = true := by
        unfold FsNode.readable at h
        rw [hw, Bool.true_and] at h
        exact h
      rw [h1 hall, List.nil_append]
    · intro h
      have hall : tree.files.all (fun f => f.2.isContent) = false := by
        unfold FsNode.readable at h
        rw [hw, Bool.true_and] at h
        exact h
      exact h2 hall

mutual
/-- A tree whose directories list their entries by ascending name lists no name
twice. -/
theorem namesDistinct_of_namesSorted : ∀ (node : FsNode),
    node.namesSorted = true → node.namesDistinct = true
  | .file _, _ => rfl
  | .dir entries, h => by
    have h2 : FsNode.namesSortedIn entries = true := by simpa [FsNode.namesSorted] using h
    simpa [FsNode.namesDistinct] using namesDistinctIn_of_namesSortedIn entries h2
  | .unreadableDir _, _ => rfl
  | .noStat _, _ => rfl
/-- The same for the entries of a directory. -/
theorem namesDistinctIn_of_namesSortedIn : ∀ (entries : List (String × FsNode)),
    FsNode.namesSortedIn entries = true → FsNode.namesDistinctIn entries = true
  | [], _ => rfl
  | (n, child) :: es, h => by
    simp only [FsNode.namesSortedIn, Bool.and_eq_true, List.all_eq_true, decide_eq_true_eq] at h
    obtain ⟨⟨hn, hc⟩, hes⟩ := h
    have hnot : n ∉ es.map (·.1) := fun hmem => lt_irrefl _ (hn n hmem)
    simp only [FsNode.namesDistinctIn, Bool.and_eq_true]
    exact ⟨⟨by simpa using hnot, namesDistinct_of_namesSorted child hc⟩,
      namesDistinctIn_of_namesSortedIn es hes⟩
end

mutual
/-- In a tree whose directories list their entries by ascending name, the
files come in the lexicographic order of the names that lead to them. -/
theorem files_sorted : ∀ (node : FsNode), node.namesSorted = true →
    (node.files.map (·.1)).Pairwise (List.Lex (· < ·))
  | .file _, _ => by simp [FsNode.files]
  | .dir entries, h => by
    have h2 : FsNode.namesSortedIn entries = true := by simpa [FsNode.namesSorted] using h
    simpa [FsNode.files] using (filesIn_sorted entries h2).1
  | .unreadableDir _, _ => by simp [FsNode.files]
  | .noStat _, _ => by simp [FsNode.files]
/-- The same for the entries of a directory; the names that lead to a file
start with the name of an entry. -/
theorem filesIn_sorted : ∀ (entries : List (String × FsNode)),
    FsNode.namesSortedIn entries = true →
    ((FsNode.filesIn entries).map (·.1)).Pairwise (List.Lex (· < ·)) ∧
    ∀ f ∈ FsNode.filesIn entries, ∃ n rest, n ∈ entries.map (·.1) ∧ f.1 = n :: rest
  | [], _ => by simp [FsNode.filesIn]
  | (n, child) :: es, h => by
    simp only [FsNode.namesSortedIn, Bool.and_eq_true, List.all_eq_true, decide_eq_true_eq] at h
    obtain ⟨⟨hn, hc⟩, hes⟩ := h
    obtain ⟨ih1, ih2⟩ := filesIn_sorted es hes
    have ihc := files_sorted child hc
    constructor
    · simp only [FsNode.filesIn, List.map_append, List.map_map, List.pairwise_append]
      refine ⟨?_, ih1, ?_⟩
      · rw [List.pairwise_map] at ihc ⊢
        exact ihc.imp (fun hab => List.Lex.cons hab)
      · intro a ha b hb
        obtain ⟨g, _, rfl⟩ := List.mem_map.1 ha
        obtain ⟨f, hf, rfl⟩ := List.mem_map.1 hb
        obtain ⟨m, rest, hm, hfe⟩ := ih2 f hf
        rw [hfe]
        exact List.Lex.rel (String.lt_iff_toList_lt.2 (hn m hm))
    · intro f hf
      simp only [FsNode.filesIn, List.mem_append, List.mem_map] at hf
      rcases hf with ⟨g, _, rfl⟩ | hf
      · exact ⟨n, g.1, by simp, rfl⟩
      · obtain ⟨m, rest, hm, hfe⟩ := ih2 f hf
        exact ⟨m, rest, by simp [hm], hfe⟩
end

theorem takeWhile_append_of_stop {α : Type} (p : α → Bool) (l r : List α) (a : α)
    (hl : ∀ x ∈ l, p x = true) (ha : p a = false) :
    (l ++ a :: r).takeWhile p = l := by
  induction l with
  | nil => simp [List.takeWhile, ha]
  | cons x xs ih =>
    have hx : p x = true := hl x (List.mem_cons_self _ _)
    rw [List.cons_append, List.takeWhile_cons, hx, if_pos rfl,
      ih (fun y hy => hl y (List.mem_cons_of_mem _ hy))]

/-- The base name of a path that ends in a separator and a valid name is that
name. -/
theorem Base_append_name (path name : String) (h : validName name = true) :
    Base (path ++ "/" ++ name) = name := by
  simp only [validName, Bool.and_eq_true, Bool.not_eq_true_eq_eq_false] at h
  obtain ⟨hne, hsep⟩ := h
  have hdata : (path ++ "/" ++ name).data = path.data ++ '/' :: name.data := by
    simp [String.data_append]
  have hrev : (path ++ "/" ++ name).data.reverse
      = name.data.reverse ++ '/' :: path.data.reverse := by
    rw [hdata]; simp
  have hnosep : ∀ c ∈ name.data.reverse, (c != '/') = true := by
    intro c hc
    have hmem : c ∈ name.data := List.mem_reverse.1 hc
    have hnot : '/' ∉ name.data := by simpa using hsep
    simp only [bne_iff_ne, ne_eq]
    rintro rfl
    exact hnot hmem
  have hnonempty : name.data.reverse ≠ [] := by
    intro hnil
    have : name.data = [] := by simpa using hnil
    simp [this] at hne
  have hdrop : ((path ++ "/" ++ name).data.reverse.dropWhile (· == '/'))
      = (path ++ "/" ++ name).data.reverse := by
    rw [hrev]
    cases hr : name.data.reverse with
    | nil => exact absurd hr hnonempty
    | cons c cs =>
      have hc : (c != '/') = true := hnosep c (by rw [hr]; simp)
      have hc2 : (c == '/') = false := by simpa using hc
      simp [List.dropWhile, hc2]
  have hpath : ¬ (path ++ "/" ++ name) = "" := by
    intro hnil
    have := congrArg String.data hnil
    rw [hdata] at this
    simp at this
  unfold Base
  simp only [hpath, if_false, hdrop, List.reverse_reverse]
  rw [hrev, takeWhile_append_of_stop _ _ _ _ hnosep (by simp), List.reverse_reverse]
  have hne2 : ¬ name.data = [] := by
    intro hnil
    simp [hnil] at hne
  simp [hne2]

theorem Path_str_append (dir : String) (names : List String) (name : String) :
    Path.str ⟨dir, names ++ [name]⟩ = Path.str ⟨dir, names⟩ ++ "/" ++ name := by
  simp [Path.str, List.foldl_append]

mutual
/-- In a tree of valid names, the names that lead to a file are valid. -/
theorem valid_of_mem_files : ∀ (node : FsNode), node.validNames = true →
    ∀ f ∈ node.files, ∀ n ∈ f.1, validName n = true
  | .file data, _, f, hf, n, hn => by
    simp only [FsNode.files, List.mem_singleton] at hf
    subst hf
    simp at hn
  | .dir entries, h, f, hf, n, hn => by
    have h2 : FsNode.validNamesIn entries = true := by simpa [FsNode.validNames] using h
    exact valid_of_mem_filesIn entries h2 f hf n hn
  | .unreadableDir e, _, f, hf, _, _ => by simp [FsNode.files] at hf
  | .noStat e, _, f, hf, _, _ => by simp [FsNode.files] at hf
/-- The same for the entries of a directory; the names that lead to a file
there are not empty. -/
theorem valid_of_mem_filesIn : ∀ (entries : List (String × FsNode)),
    FsNode.validNamesIn entries = true →
    ∀ f ∈ FsNode.filesIn entries, ∀ n ∈ f.1, validName n = true
  | [], _, f, hf, _, _ => by simp [FsNode.filesIn] at hf
  | (m, child) :: es, h, f, hf, n, hn => by
    simp only [FsNode.validNamesIn, Bool.and_eq_true] at h
    obtain ⟨⟨hm, hc⟩, hes⟩ := h
    simp only [FsNode.filesIn, List.mem_append, List.mem_map] at hf
    rcases hf with ⟨g, hg, rfl⟩ | hf
    · rcases List.mem_cons.1 hn with rfl | hn
      · exact hm
      · exact valid_of_mem_files child hc g hg n hn
    · exact valid_of_mem_filesIn es hes f hf n hn
end

theorem names_ne_nil_of_mem_filesIn (entries : List (String × FsNode)) :
    ∀ f ∈ FsNode.filesIn entries, f.1 ≠ [] := by
  induction entries with
  | nil => intro f hf; simp [FsNode.filesIn] at hf
  | cons e es ih =>
    obtain ⟨m, child⟩ := e
    intro f hf
    simp only [FsNode.filesIn, List.mem_append, List.mem_map] at hf
    rcases hf with ⟨g, _, rfl⟩ | hf
    · simp
    · exact ih f hf

/-- The ID made from the path of a file below `Dir` is the name of the file. -/
theorem Base_str_eq_last (dir : String) (names : List String) (hne : names ≠ [])
    (hv : ∀ n ∈ names, validName n = true) :
    Base (Path.str ⟨dir, names⟩) = names.getLast?.getD "" := by
  obtain ⟨init, last, rfl⟩ := List.eq_nil_or_concat names |>.resolve_left hne
  rw [List.concat_eq_append] at hv ⊢
  rw [Path_str_append, Base_append_name _ _ (hv last (by simp))]
  simp

/-- Below a directory of valid names, the base name of the path of each file is
the name of the file. -/
theorem ids_eq_fileNames (dir : String) (tree : FsNode) (hv : tree.validNames = true)
    (hf : tree.isFile = false) :
    tree.files.map (fun f => Base (Path.str ⟨dir, f.1⟩)) = tree.fileNames := by
  unfold FsNode.fileNames
  cases tree with
  | file data => simp [FsNode.isFile] at hf
  | dir entries =>
    apply List.map_congr_left
    intro f hmem
    have hmem2 : f ∈ FsNode.filesIn entries := by simpa [FsNode.files] using hmem
    exact Base_str_eq_last dir f.1 (names_ne_nil_of_mem_filesIn entries f hmem2)
      (valid_of_mem_files _ hv f hmem)
  | unreadableDir e => simp [FsNode.files]
  | noStat e => simp [FsNode.files]

theorem content_text_of_isContent (d : FileData) (h : d.isContent = true) :
    FileData.content d.text = d := by
  cases d with
  | content c => rfl
  | openFails e => simp [FileData.isContent] at h
  | readFails e => simp [FileData.isContent] at h

/-- C12: on a directory tree whose directories list valid names by ascending
name (as the walk reads them), `SourceDir.Migrations` returns, when the tree is
readable, one migration per non-directory file under `Dir` and none for a
directory, in the order of the walk, each with the name of the file (the last
element of its path, which is what `filepath.Base` gives) as ID and the file's
contents as content; that order is the lexicographic order of the names leading
to the files, so lexical within each directory; and when the walk, an open or a
read fails it returns an error and no list. -/
theorem SourceDir_Migrations_lists_files (sr : SourceDir) (tree : FsNode)
    (hs : tree.namesSorted = true) (hv : tree.validNames = true) :
    (tree.readable = true →
      ∃ ms, sr.Migrations tree = .ok ms ∧
        (tree.isFile = false → ms.map (·.ID) = tree.fileNames) ∧
        ms.map (·.ID) = tree.files.map (fun f => Base (Path.str ⟨sr.Dir, f.1⟩)) ∧
        ms.map (fun m => FileData.content m.Content) = tree.files.map (·.2)) ∧
    (tree.files.map (·.1)).Pairwise (List.Lex (· < ·)) ∧
    (tree.readable = false → ∃ e, sr.Migrations tree = .error e) := by
  obtain ⟨h1, h2⟩ := Migrations_of_tree sr tree (namesDistinct_of_namesSorted tree hs)
  refine ⟨?_, files_sorted tree hs, h2⟩
  intro hr
  have hids : (tree.files.map (fun f =>
        ({ ID := Base (Path.str ⟨sr.Dir, f.1⟩), Content := f.2.text } : Migration))).map (·.ID)
      = tree.files.map (fun f => Base (Path.str ⟨sr.Dir, f.1⟩)) := by
    rw [List.map_map]
    rfl
  refine ⟨_, h1 hr, ?_, hids, ?_⟩
  · intro hf
    rw [hids]
    exact ids_eq_fileNames sr.Dir tree hv hf
  · rw [List.map_map]
    apply List.map_congr_left
    intro f hf
    have hall : tree.files.all (fun f => f.2.isContent) = true := by
      unfold FsNode.readable at hr
      exact (Bool.and_eq_true _ _ ▸ hr).2
    exact content_text_of_isContent f.2 (List.all_eq_true.1 hall f hf)

/-- C12 at the directory of `TestSourceDir`, whose three files give the IDs and
contents the test expects, and at a directory with a file that cannot be
read. -/
theorem SourceDir_Migrations_lists_files_witness :
    (∃ ms, SourceDir.Migrations ⟨"/tmp/TestSourceDir"⟩ testDirTree = .ok ms ∧
        ms.map (·.ID) = ["0.migration.sql", "1.migration.sql", "2.migration.sql"] ∧
        ms.map (fun m => FileData.content m.Content)
          = [FileData.content "CREATE EXTENSION IF NOT EXISTS \"uuid-ossp\";",
             FileData.content "CREATE TABLE users (...);",
             FileData.content "CREATE TABLE user_sessions (...);"]) ∧
    (testDirTree.files.map (·.1)).Pairwise (List.Lex (· < ·)) ∧
    (∃ e, SourceDir.Migrations ⟨"/tmp/TestSourceDir"⟩ brokenDirTree = .error e) :=
  ⟨((SourceDir_Migrations_lists_files ⟨"/tmp/TestSourceDir"⟩ testDirTree (by decide)
      (by decide)).1 (by decide)).elim
      (fun ms hms => ⟨ms, hms.1, hms.2.1 (by decide), hms.2.2.2⟩),
   (SourceDir_Migrations_lists_files ⟨"/tmp/TestSourceDir"⟩ testDirTree (by decide)
      (by decide)).2.1,
   (SourceDir_Migrations_lists_files ⟨"/tmp/TestSourceDir"⟩ brokenDirTree (by decide)
      (by decide)).2.2 (by decide)⟩

/-! ## C13: the IDs of `SourceDir.Migrations` -/

/-- C13, as stated, fails on a tree with the same file name in two
subdirectories: `a/1.sql` and `b/1.sql` under `migrations` give two migrations
with the ID `1.sql`. -/
theorem SourceDir_same_name_in_subdirs_same_ID :
    twoSubdirsTree.namesSorted = true ∧ twoSubdirsTree.readable = true ∧
    SourceDir.Migrations ⟨"migrations"⟩ twoSubdirsTree
      = .ok [{ ID := "1.sql", Content := "CREATE TABLE first ();" },
             { ID := "1.sql", Content := "CREATE TABLE second ();" }] ∧
    ¬ (([{ ID := "1.sql", Content := "CREATE TABLE first ();" },
         { ID := "1.sql", Content := "CREATE TABLE second ();" }] : List Migration).map
        (·.ID)).Nodup := by
  refine ⟨by decide, by decide, rfl, by decide⟩

theorem names_nodup_of_namesSortedIn (entries : List (String × FsNode))
    (h : FsNode.namesSortedIn entries = true) : (entries.map (·.1)).Nodup := by
  induction entries with
  | nil => simp
  | cons e es ih =>
    obtain ⟨n, child⟩ := e
    simp only [FsNode.namesSortedIn, Bool.and_eq_true, List.all_eq_true, decide_eq_true_eq] at h
    obtain ⟨⟨hn, _⟩, hes⟩ := h
    rw [List.map_cons, List.nodup_cons]
    exact ⟨fun hmem => lt_irrefl _ (hn n hmem), ih hes⟩

theorem fileNames_of_flat (entries : List (String × FsNode))
    (h : entries.all (fun e => e.2.isFile) = true) :
    (FsNode.filesIn entries).map (fun f => f.1.getLast?.getD "") = entries.map (·.1) := by
  induction entries with
  | nil => simp [FsNode.filesIn]
  | cons e es ih =>
    obtain ⟨n, child⟩ := e
    rw [List.all_cons, Bool.and_eq_true] at h
    cases child with
    | file data => simp [FsNode.filesIn, FsNode.files, ih h.2]
    | dir _ => simp [FsNode.isFile] at h
    | unreadableDir _ => simp [FsNode.isFile] at h
    | noStat _ => simp [FsNode.isFile] at h

/-- C13, amended: for a readable directory whose tree lists valid names by
ascending name, the ID of each migration returned by `SourceDir.Migrations` is
the name of its file (the last element of its path), so the IDs are pairwise
distinct exactly when no two files under `Dir` have the same name, and they are
pairwise distinct when all the files lie directly in `Dir`. -/
theorem SourceDir_IDs_are_file_names (sr : SourceDir) (entries : List (String × FsNode))
    (hs : (FsNode.dir entries).namesSorted = true)
    (hv : (FsNode.dir entries).validNames = true)
    (hr : (FsNode.dir entries).readable = true) :
    ∃ ms, sr.Migrations (.dir entries) = .ok ms ∧
      ms.map (·.ID) = (FsNode.dir entries).fileNames ∧
      ((ms.map (·.ID)).Nodup ↔ (FsNode.dir entries).fileNames.Nodup) ∧
      (entries.all (fun e => e.2.isFile) = true → (ms.map (·.ID)).Nodup) := by
  obtain ⟨h1, _⟩ := Migrations_of_tree sr (.dir entries)
    (namesDistinct_of_namesSorted _ hs)
  have hids : ((FsNode.dir entries).files.map (fun f =>
        ({ ID := Base (Path.str ⟨sr.Dir, f.1⟩), Content := f.2.text } : Migration))).map (·.ID)
      = (FsNode.dir entries).fileNames := by
    rw [List.map_map]
    unfold FsNode.fileNames
    apply List.map_congr_left
    intro f hf
    have hf2 : f ∈ FsNode.filesIn entries := by simpa [FsNode.files] using hf
    exact Base_str_eq_last sr.Dir f.1 (names_ne_nil_of_mem_filesIn entries f hf2)
      (valid_of_mem_files _ hv f hf)
  refine ⟨_, h1 hr, hids, by rw [hids], ?_⟩
  intro hflat
  rw [hids]
  have hs2 : FsNode.namesSortedIn entries = true := by simpa [FsNode.namesSorted] using hs
  unfold FsNode.fileNames
  rw [show (FsNode.dir entries).files = FsNode.filesIn entries by simp [FsNode.files],
    fileNames_of_flat entries hflat]
  exact names_nodup_of_namesSortedIn entries hs2

/-- C13, amended, at the directory of `TestSourceDir`. -/
theorem SourceDir_IDs_are_file_names_witness :
    ∃ ms, SourceDir.Migrations ⟨"/tmp/TestSourceDir"⟩ (.dir testDirEntries) = .ok ms ∧
      ms.map (·.ID) = (FsNode.dir testDirEntries).fileNames ∧
      ((ms.map (·.ID)).Nodup ↔ (FsNode.dir testDirEntries).fileNames.Nodup) ∧
      (ms.map (·.ID)).Nodup :=
  (SourceDir_IDs_are_file_names ⟨"/tmp/TestSourceDir"⟩ testDirEntries
    (by decide) (by decide) (by decide)).elim
    (fun ms hms => ⟨ms, hms.1, hms.2.1, hms.2.2.1, hms.2.2.2 (by decide)⟩)

end Migrations
